import Mathlib

/-!
Verification of the Pecron cloud-API client core: the credential cipher
(`auth.py`), the property codec (`models.py`) and the session/request layer
(`client.py`), shallowly embedded over `Nat`-valued bytes and Lean strings.

Bytes are modelled as `Nat` values below 256; machine words as `Nat` with
explicit reduction modulo `2 ^ 32`.
-/

set_option maxRecDepth 10000

namespace Pecron

/-! ## Byte-level string helpers -/

/-- UTF-8 encoding of a single code point (the usual 1-4 byte forms). -/
def utf8Char (n : Nat) : List Nat :=
  if n < 0x80 then [n]
  else if n < 0x800 then [0xC0 + n / 0x40, 0x80 + n % 0x40]
  else if n < 0x10000 then
    [0xE0 + n / 0x1000, 0x80 + (n / 0x40) % 0x40, 0x80 + n % 0x40]
  else
    [0xF0 + n / 0x40000, 0x80 + (n / 0x1000) % 0x40, 0x80 + (n / 0x40) % 0x40,
      0x80 + n % 0x40]

/-- UTF-8 encoding of a string, as `str.encode("utf-8")` produces it. -/
def utf8Encode (s : String) : List Nat :=
  (s.toList.map (fun c => utf8Char c.toNat)).flatten

/-- The lowercase hexadecimal digit for a value below 16. -/
def hexChar (k : Nat) : Char :=
  "0123456789abcdef".toList.getD k '0'

/-- Lowercase hex rendering of a byte sequence (`bytes.hex()` / `hexdigest`). -/
def hexOfBytes (bs : List Nat) : List Char :=
  (bs.map (fun b => [hexChar (b / 16), hexChar (b % 16)])).flatten

/-- Python `str.upper()` (ASCII case mapping suffices for the hex strings here). -/
def pythonUpper (s : String) : String :=
  String.mk (s.toList.map Char.toUpper)

/-- Python `str.lower()` (ASCII case mapping). -/
def pythonLower (s : String) : String :=
  String.mk (s.toList.map Char.toLower)

/-- Python slicing `s[a:b]` on a string with non-negative bounds. -/
def pythonSlice (s : String) (a b : Nat) : String :=
  String.mk ((s.toList.drop a).take (b - a))

/-- Digit run accumulator for Python `int()`: digits with single interior
underscores allowed. -/
def pyDigitsGo (acc : Nat) : List Char → Option Nat
  | [] => some acc
  | '_' :: d :: rest =>
    if d.isDigit then pyDigitsGo (acc * 10 + (d.toNat - 48)) rest else none
  | d :: rest =>
    if d.isDigit then pyDigitsGo (acc * 10 + (d.toNat - 48)) rest else none

/-- Parse a non-empty decimal digit run as Python `int()` accepts it. -/
def pyDigits : List Char → Option Nat
  | [] => none
  | c :: rest => if c.isDigit then pyDigitsGo (c.toNat - 48) rest else none

/-- Strip leading and trailing whitespace from a character list. -/
def stripWs (cs : List Char) : List Char :=
  ((cs.dropWhile Char.isWhitespace).reverse.dropWhile Char.isWhitespace).reverse

/-- Python `int(s)`: optional surrounding whitespace, optional sign, base-10
digits; `None` models a raised `ValueError`. -/
def pythonInt (s : String) : Option Int :=
  match stripWs s.toList with
  | '+' :: rest => (pyDigits rest).map Int.ofNat
  | '-' :: rest => (pyDigits rest).map (fun n => -(Int.ofNat n))
  | rest => (pyDigits rest).map Int.ofNat

/-! ## 32-bit word helpers -/

/-- Reduce to a 32-bit word. -/
def w32 (n : Nat) : Nat := n % 4294967296

/-- 32-bit left rotation. -/
def rotl32 (x c : Nat) : Nat := w32 ((x <<< c) ||| (x >>> (32 - c)))

/-- 32-bit right rotation. -/
def rotr32 (x c : Nat) : Nat := w32 ((x >>> c) ||| (x <<< (32 - c)))

/-- 32-bit complement (for words below `2 ^ 32`). -/
def not32 (x : Nat) : Nat := x ^^^ 0xFFFFFFFF

/-- Fuel-driven chunking loop (structural recursion on the fuel, so that the
kernel can evaluate it; the fuel is the list length, which always suffices
for positive `k`). -/
def chunkByGo {α : Type} (k : Nat) : Nat → List α → List (List α)
  | _, [] => []
  | 0, _ :: _ => []
  | fuel + 1, a :: t =>
    if k = 0 then []
    else (a :: t).take k :: chunkByGo k fuel ((a :: t).drop k)

/-- Split a list into chunks of `k` elements (last chunk possibly short). -/
def chunkBy {α : Type} (k : Nat) (bs : List α) : List (List α) :=
  chunkByGo k bs.length bs

/-- Little-endian 32-bit words from bytes, four at a time. -/
def wordsLE : List Nat → List Nat
  | b0 :: b1 :: b2 :: b3 :: rest =>
    (b0 + 256 * b1 + 65536 * b2 + 16777216 * b3) :: wordsLE rest
  | _ => []

/-- Big-endian 32-bit words from bytes, four at a time. -/
def wordsBE : List Nat → List Nat
  | b0 :: b1 :: b2 :: b3 :: rest =>
    (16777216 * b0 + 65536 * b1 + 256 * b2 + b3) :: wordsBE rest
  | _ => []

/-- A 32-bit word as four little-endian bytes. -/
def bytesLE4 (x : Nat) : List Nat :=
  [x % 256, x / 256 % 256, x / 65536 % 256, x / 16777216 % 256]

/-- A 32-bit word as four big-endian bytes. -/
def bytesBE4 (x : Nat) : List Nat :=
  [x / 16777216 % 256, x / 65536 % 256, x / 256 % 256, x % 256]

/-! ## MD5 (RFC 1321), little-endian, words as `Nat` mod `2 ^ 32` -/

/-- The 64 MD5 sine-derived constants. -/
def md5K : List Nat :=
  [0xd76aa478, 0xe8c7b756, 0x242070db, 0xc1bdceee,
   0xf57c0faf, 0x4787c62a, 0xa8304613, 0xfd469501,
   0x698098d8, 0x8b44f7af, 0xffff5bb1, 0x895cd7be,
   0x6b901122, 0xfd987193, 0xa679438e, 0x49b40821,
   0xf61e2562, 0xc040b340, 0x265e5a51, 0xe9b6c7aa,
   0xd62f105d, 0x02441453, 0xd8a1e681, 0xe7d3fbc8,
   0x21e1cde6, 0xc33707d6, 0xf4d50d87, 0x455a14ed,
   0xa9e3e905, 0xfcefa3f8, 0x676f02d9, 0x8d2a4c8a,
   0xfffa3942, 0x8771f681, 0x6d9d6122, 0xfde5380c,
   0xa4beea44, 0x4bdecfa9, 0xf6bb4b60, 0xbebfbc70,
   0x289b7ec6, 0xeaa127fa, 0xd4ef3085, 0x04881d05,
   0xd9d4d039, 0xe6db99e5, 0x1fa27cf8, 0xc4ac5665,
   0xf4292244, 0x432aff97, 0xab9423a7, 0xfc93a039,
   0x655b59c3, 0x8f0ccc92, 0xffeff47d, 0x85845dd1,
   0x6fa87e4f, 0xfe2ce6e0, 0xa3014314, 0x4e0811a1,
   0xf7537e82, 0xbd3af235, 0x2ad7d2bb, 0xeb86d391]

/-- The 64 MD5 per-round rotation amounts. -/
def md5S : List Nat :=
  [7, 12, 17, 22, 7, 12, 17, 22, 7, 12, 17, 22, 7, 12, 17, 22,
   5, 9, 14, 20, 5, 9, 14, 20, 5, 9, 14, 20, 5, 9, 14, 20,
   4, 11, 16, 23, 4, 11, 16, 23, 4, 11, 16, 23, 4, 11, 16, 23,
   6, 10, 15, 21, 6, 10, 15, 21, 6, 10, 15, 21, 6, 10, 15, 21]

/-- The MD5 round function for step `i`. -/
def md5F (i b c d : Nat) : Nat :=
  if i < 16 then (b &&& c) ||| (not32 b &&& d)
  else if i < 32 then (d &&& b) ||| (not32 d &&& c)
  else if i < 48 then b ^^^ c ^^^ d
  else c ^^^ (b ||| not32 d)

/-- The MD5 message-word index for step `i`. -/
def md5G (i : Nat) : Nat :=
  if i < 16 then i
  else if i < 32 then (5 * i + 1) % 16
  else if i < 48 then (3 * i + 5) % 16
  else (7 * i) % 16

/-- One MD5 step on the `(a, b, c, d)` state. -/
def md5Step (m : List Nat) (st : Nat × Nat × Nat × Nat) (i : Nat) :
    Nat × Nat × Nat × Nat :=
  let (a, b, c, d) := st
  let f := w32 (md5F i b c d + a + md5K.getD i 0 + m.getD (md5G i) 0)
  (d, w32 (b + rotl32 f (md5S.getD i 0)), b, c)

/-- Process one 64-byte MD5 block. -/
def md5Block (st : Nat × Nat × Nat × Nat) (block : List Nat) :
    Nat × Nat × Nat × Nat :=
  let m := wordsLE block
  let (a, b, c, d) := (List.range 64).foldl (md5Step m) st
  (w32 (st.1 + a), w32 (st.2.1 + b), w32 (st.2.2.1 + c), w32 (st.2.2.2 + d))

/-- MD5 padding: `0x80`, zeros to 56 mod 64, then the 64-bit little-endian
bit length. -/
def md5Pad (msg : List Nat) : List Nat :=
  msg ++ [0x80] ++ List.replicate ((119 - msg.length % 64) % 64) 0 ++
    (List.range 8).map (fun i => msg.length * 8 / 256 ^ i % 256)

/-- The 16-byte MD5 digest of a byte sequence. -/
def md5Bytes (msg : List Nat) : List Nat :=
  let st :=
    (chunkBy 64 (md5Pad msg)).foldl md5Block
      (0x67452301, 0xefcdab89, 0x98badcfe, 0x10325476)
  bytesLE4 st.1 ++ bytesLE4 st.2.1 ++ bytesLE4 st.2.2.1 ++ bytesLE4 st.2.2.2

/-- Python `hashlib.md5(data).hexdigest()`. -/
def md5HexDigest (data : List Nat) : String :=
  String.mk (hexOfBytes (md5Bytes data))

/-! ## SHA-256 (FIPS 180-4), big-endian, words as `Nat` mod `2 ^ 32` -/

/-- The 64 SHA-256 round constants (FIPS 180-4: the first 32 bits of the
fractional parts of the cube roots of the first 64 primes), in decimal. -/
def sha256K : List Nat :=
  [1116352408, 1899447441, 3049323471, 3921009573,
   961987163, 1508970993, 2453635748, 2870763221,
   3624381080, 310598401, 607225278, 1426881987,
   1925078388, 2162078206, 2614888103, 3248222580,
   3835390401, 4022224774, 264347078, 604807628,
   770255983, 1249150122, 1555081692, 1996064986,
   2554220882, 2821834349, 2952996808, 3210313671,
   3336571891, 3584528711, 113926993, 338241895,
   666307205, 773529912, 1294757372, 1396182291,
   1695183700, 1986661051, 2177026350, 2456956037,
   2730485921, 2820302411, 3259730800, 3345764771,
   3516065817, 3600352804, 4094571909, 275423344,
   430227734, 506948616, 659060556, 883997877,
   958139571, 1322822218, 1537002063, 1747873779,
   1955562222, 2024104815, 2227730452, 2361852424,
   2428436474, 2756734187, 3204031479, 3329325298]

/-- SHA-256 small sigma 0. -/
def sha256s0 (x : Nat) : Nat := rotr32 x 7 ^^^ rotr32 x 18 ^^^ (x >>> 3)

/-- SHA-256 small sigma 1. -/
def sha256s1 (x : Nat) : Nat := rotr32 x 17 ^^^ rotr32 x 19 ^^^ (x >>> 10)

/-- SHA-256 big Sigma 0. -/
def sha256S0 (x : Nat) : Nat := rotr32 x 2 ^^^ rotr32 x 13 ^^^ rotr32 x 22

/-- SHA-256 big Sigma 1. -/
def sha256S1 (x : Nat) : Nat := rotr32 x 6 ^^^ rotr32 x 11 ^^^ rotr32 x 25

/-- The extended 64-word SHA-256 message schedule of a block. -/
def sha256Schedule (block : List Nat) : List Nat :=
  (List.range 48).foldl
    (fun w i =>
      w ++ [w32 (w.getD i 0 + sha256s0 (w.getD (i + 1) 0) +
        w.getD (i + 9) 0 + sha256s1 (w.getD (i + 14) 0))])
    (wordsBE block)

/-- One SHA-256 compression round. -/
def sha256Round (w : List Nat)
    (st : Nat × Nat × Nat × Nat × Nat × Nat × Nat × Nat) (i : Nat) :
    Nat × Nat × Nat × Nat × Nat × Nat × Nat × Nat :=
  let (a, b, c, d, e, f, g, h) := st
  let ch := (e &&& f) ^^^ (not32 e &&& g)
  let maj := (a &&& b) ^^^ (a &&& c) ^^^ (b &&& c)
  let t1 := w32 (h + sha256S1 e + ch + sha256K.getD i 0 + w.getD i 0)
  let t2 := w32 (sha256S0 a + maj)
  (w32 (t1 + t2), a, b, c, w32 (d + t1), e, f, g)

/-- Process one 64-byte SHA-256 block. -/
def sha256Block (st : Nat × Nat × Nat × Nat × Nat × Nat × Nat × Nat)
    (block : List Nat) : Nat × Nat × Nat × Nat × Nat × Nat × Nat × Nat :=
  let w := sha256Schedule block
  let (a, b, c, d, e, f, g, h) := (List.range 64).foldl (sha256Round w) st
  (w32 (st.1 + a), w32 (st.2.1 + b), w32 (st.2.2.1 + c), w32 (st.2.2.2.1 + d),
   w32 (st.2.2.2.2.1 + e), w32 (st.2.2.2.2.2.1 + f),
   w32 (st.2.2.2.2.2.2.1 + g), w32 (st.2.2.2.2.2.2.2 + h))

/-- SHA-256 padding: `0x80`, zeros to 56 mod 64, then the 64-bit big-endian
bit length. -/
def sha256Pad (msg : List Nat) : List Nat :=
  msg ++ [0x80] ++ List.replicate ((119 - msg.length % 64) % 64) 0 ++
    (List.range 8).map (fun i => msg.length * 8 / 256 ^ (7 - i) % 256)

/-- The 32-byte SHA-256 digest of a byte sequence. -/
def sha256Bytes (msg : List Nat) : List Nat :=
  let st :=
    (chunkBy 64 (sha256Pad msg)).foldl sha256Block
      (0x6a09e667, 0xbb67ae85, 0x3c6ef372, 0xa54ff53a,
       0x510e527f, 0x9b05688c, 0x1f83d9ab, 0x5be0cd19)
  bytesBE4 st.1 ++ bytesBE4 st.2.1 ++ bytesBE4 st.2.2.1 ++
    bytesBE4 st.2.2.2.1 ++ bytesBE4 st.2.2.2.2.1 ++ bytesBE4 st.2.2.2.2.2.1 ++
    bytesBE4 st.2.2.2.2.2.2.1 ++ bytesBE4 st.2.2.2.2.2.2.2

/-- Python `hashlib.sha256(data).hexdigest()`. -/
def sha256HexDigest (data : List Nat) : String :=
  String.mk (hexOfBytes (sha256Bytes data))

/-! ## AES-128 (FIPS 197), bytes as `Nat` below 256, state flat column-major -/

/-- The AES S-box. -/
def aesSbox : List Nat :=
  [0x63, 0x7c, 0x77, 0x7b, 0xf2, 0x6b, 0x6f, 0xc5,
   0x30, 0x01, 0x67, 0x2b, 0xfe, 0xd7, 0xab, 0x76,
   0xca, 0x82, 0xc9, 0x7d, 0xfa, 0x59, 0x47, 0xf0,
   0xad, 0xd4, 0xa2, 0xaf, 0x9c, 0xa4, 0x72, 0xc0,
   0xb7, 0xfd, 0x93, 0x26, 0x36, 0x3f, 0xf7, 0xcc,
   0x34, 0xa5, 0xe5, 0xf1, 0x71, 0xd8, 0x31, 0x15,
   0x04, 0xc7, 0x23, 0xc3, 0x18, 0x96, 0x05, 0x9a,
   0x07, 0x12, 0x80, 0xe2, 0xeb, 0x27, 0xb2, 0x75,
   0x09, 0x83, 0x2c, 0x1a, 0x1b, 0x6e, 0x5a, 0xa0,
   0x52, 0x3b, 0xd6, 0xb3, 0x29, 0xe3, 0x2f, 0x84,
   0x53, 0xd1, 0x00, 0xed, 0x20, 0xfc, 0xb1, 0x5b,
   0x6a, 0xcb, 0xbe, 0x39, 0x4a, 0x4c, 0x58, 0xcf,
   0xd0, 0xef, 0xaa, 0xfb, 0x43, 0x4d, 0x33, 0x85,
   0x45, 0xf9, 0x02, 0x7f, 0x50, 0x3c, 0x9f, 0xa8,
   0x51, 0xa3, 0x40, 0x8f, 0x92, 0x9d, 0x38, 0xf5,
   0xbc, 0xb6, 0xda, 0x21, 0x10, 0xff, 0xf3, 0xd2,
   0xcd, 0x0c, 0x13, 0xec, 0x5f, 0x97, 0x44, 0x17,
   0xc4, 0xa7, 0x7e, 0x3d, 0x64, 0x5d, 0x19, 0x73,
   0x60, 0x81, 0x4f, 0xdc, 0x22, 0x2a, 0x90, 0x88,
   0x46, 0xee, 0xb8, 0x14, 0xde, 0x5e, 0x0b, 0xdb,
   0xe0, 0x32, 0x3a, 0x0a, 0x49, 0x06, 0x24, 0x5c,
   0xc2, 0xd3, 0xac, 0x62, 0x91, 0x95, 0xe4, 0x79,
   0xe7, 0xc8, 0x37, 0x6d, 0x8d, 0xd5, 0x4e, 0xa9,
   0x6c, 0x56, 0xf4, 0xea, 0x65, 0x7a, 0xae, 0x08,
   0xba, 0x78, 0x25, 0x2e, 0x1c, 0xa6, 0xb4, 0xc6,
   0xe8, 0xdd, 0x74, 0x1f, 0x4b, 0xbd, 0x8b, 0x8a,
   0x70, 0x3e, 0xb5, 0x66, 0x48, 0x03, 0xf6, 0x0e,
   0x61, 0x35, 0x57, 0xb9, 0x86, 0xc1, 0x1d, 0x9e,
   0xe1, 0xf8, 0x98, 0x11, 0x69, 0xd9, 0x8e, 0x94,
   0x9b, 0x1e, 0x87, 0xe9, 0xce, 0x55, 0x28, 0xdf,
   0x8c, 0xa1, 0x89, 0x0d, 0xbf, 0xe6, 0x42, 0x68,
   0x41, 0x99, 0x2d, 0x0f, 0xb0, 0x54, 0xbb, 0x16]

/-- The inverse AES S-box. -/
def aesInvSbox : List Nat :=
  [0x52, 0x09, 0x6a, 0xd5, 0x30, 0x36, 0xa5, 0x38,
   0xbf, 0x40, 0xa3, 0x9e, 0x81, 0xf3, 0xd7, 0xfb,
   0x7c, 0xe3, 0x39, 0x82, 0x9b, 0x2f, 0xff, 0x87,
   0x34, 0x8e, 0x43, 0x44, 0xc4, 0xde, 0xe9, 0xcb,
   0x54, 0x7b, 0x94, 0x32, 0xa6, 0xc2, 0x23, 0x3d,
   0xee, 0x4c, 0x95, 0x0b, 0x42, 0xfa, 0xc3, 0x4e,
   0x08, 0x2e, 0xa1, 0x66, 0x28, 0xd9, 0x24, 0xb2,
   0x76, 0x5b, 0xa2, 0x49, 0x6d, 0x8b, 0xd1, 0x25,
   0x72, 0xf8, 0xf6, 0x64, 0x86, 0x68, 0x98, 0x16,
   0xd4, 0xa4, 0x5c, 0xcc, 0x5d, 0x65, 0xb6, 0x92,
   0x6c, 0x70, 0x48, 0x50, 0xfd, 0xed, 0xb9, 0xda,
   0x5e, 0x15, 0x46, 0x57, 0xa7, 0x8d, 0x9d, 0x84,
   0x90, 0xd8, 0xab, 0x00, 0x8c, 0xbc, 0xd3, 0x0a,
   0xf7, 0xe4, 0x58, 0x05, 0xb8, 0xb3, 0x45, 0x06,
   0xd0, 0x2c, 0x1e, 0x8f, 0xca, 0x3f, 0x0f, 0x02,
   0xc1, 0xaf, 0xbd, 0x03, 0x01, 0x13, 0x8a, 0x6b,
   0x3a, 0x91, 0x11, 0x41, 0x4f, 0x67, 0xdc, 0xea,
   0x97, 0xf2, 0xcf, 0xce, 0xf0, 0xb4, 0xe6, 0x73,
   0x96, 0xac, 0x74, 0x22, 0xe7, 0xad, 0x35, 0x85,
   0xe2, 0xf9, 0x37, 0xe8, 0x1c, 0x75, 0xdf, 0x6e,
   0x47, 0xf1, 0x1a, 0x71, 0x1d, 0x29, 0xc5, 0x89,
   0x6f, 0xb7, 0x62, 0x0e, 0xaa, 0x18, 0xbe, 0x1b,
   0xfc, 0x56, 0x3e, 0x4b, 0xc6, 0xd2, 0x79, 0x20,
   0x9a, 0xdb, 0xc0, 0xfe, 0x78, 0xcd, 0x5a, 0xf4,
   0x1f, 0xdd, 0xa8, 0x33, 0x88, 0x07, 0xc7, 0x31,
   0xb1, 0x12, 0x10, 0x59, 0x27, 0x80, 0xec, 0x5f,
   0x60, 0x51, 0x7f, 0xa9, 0x19, 0xb5, 0x4a, 0x0d,
   0x2d, 0xe5, 0x7a, 0x9f, 0x93, 0xc9, 0x9c, 0xef,
   0xa0, 0xe0, 0x3b, 0x4d, 0xae, 0x2a, 0xf5, 0xb0,
   0xc8, 0xeb, 0xbb, 0x3c, 0x83, 0x53, 0x99, 0x61,
   0x17, 0x2b, 0x04, 0x7e, 0xba, 0x77, 0xd6, 0x26,
   0xe1, 0x69, 0x14, 0x63, 0x55, 0x21, 0x0c, 0x7d]

/-- S-box lookup on a byte. -/
def sboxAt (b : Nat) : Nat := aesSbox.getD b 0

/-- Inverse S-box lookup on a byte. -/
def invSboxAt (b : Nat) : Nat := aesInvSbox.getD b 0

/-- Multiplication by `x` in GF(2^8) modulo `x^8 + x^4 + x^3 + x + 1`. -/
def xtime (b : Nat) : Nat :=
  2 * b % 256 ^^^ (if b.testBit 7 then 0x1b else 0)

/-- GF(2^8) multiplication by 2. -/
def gmul2 (b : Nat) : Nat := xtime b

/-- GF(2^8) multiplication by 3. -/
def gmul3 (b : Nat) : Nat := xtime b ^^^ b

/-- GF(2^8) multiplication by 9. -/
def gmul9 (b : Nat) : Nat := xtime (xtime (xtime b)) ^^^ b

/-- GF(2^8) multiplication by 11. -/
def gmul11 (b : Nat) : Nat := xtime (xtime (xtime b)) ^^^ xtime b ^^^ b

/-- GF(2^8) multiplication by 13. -/
def gmul13 (b : Nat) : Nat := xtime (xtime (xtime b)) ^^^ xtime (xtime b) ^^^ b

/-- GF(2^8) multiplication by 14. -/
def gmul14 (b : Nat) : Nat :=
  xtime (xtime (xtime b)) ^^^ xtime (xtime b) ^^^ xtime b

/-- Bytewise xor of two equal-length byte sequences. -/
def zipXor (a b : List Nat) : List Nat := List.zipWith (fun x y => x ^^^ y) a b

/-- AES SubBytes. -/
def subBytes (s : List Nat) : List Nat := s.map sboxAt

/-- AES InvSubBytes. -/
def invSubBytes (s : List Nat) : List Nat := s.map invSboxAt

/-- AES ShiftRows on the flat column-major 16-byte state. -/
def shiftRows (s : List Nat) : List Nat :=
  match s with
  | [s0, s1, s2, s3, s4, s5, s6, s7, s8, s9, s10, s11, s12, s13, s14, s15] =>
    [s0, s5, s10, s15, s4, s9, s14, s3, s8, s13, s2, s7, s12, s1, s6, s11]
  | _ => []

/-- AES InvShiftRows on the flat column-major 16-byte state. -/
def invShiftRows (s : List Nat) : List Nat :=
  match s with
  | [s0, s1, s2, s3, s4, s5, s6, s7, s8, s9, s10, s11, s12, s13, s14, s15] =>
    [s0, s13, s10, s7, s4, s1, s14, s11, s8, s5, s2, s15, s12, s9, s6, s3]
  | _ => []

/-- AES MixColumns on one 4-byte column. -/
def mixCol (a b c d : Nat) : List Nat :=
  [gmul2 a ^^^ gmul3 b ^^^ c ^^^ d,
   a ^^^ gmul2 b ^^^ gmul3 c ^^^ d,
   a ^^^ b ^^^ gmul2 c ^^^ gmul3 d,
   gmul3 a ^^^ b ^^^ c ^^^ gmul2 d]

/-- AES InvMixColumns on one 4-byte column. -/
def invMixCol (a b c d : Nat) : List Nat :=
  [gmul14 a ^^^ gmul11 b ^^^ gmul13 c ^^^ gmul9 d,
   gmul9 a ^^^ gmul14 b ^^^ gmul11 c ^^^ gmul13 d,
   gmul13 a ^^^ gmul9 b ^^^ gmul14 c ^^^ gmul11 d,
   gmul11 a ^^^ gmul13 b ^^^ gmul9 c ^^^ gmul14 d]

/-- AES MixColumns on the flat 16-byte state. -/
def mixColumns (s : List Nat) : List Nat :=
  match s with
  | [a0, a1, a2, a3, b0, b1, b2, b3, c0, c1, c2, c3, d0, d1, d2, d3] =>
    mixCol a0 a1 a2 a3 ++ mixCol b0 b1 b2 b3 ++ mixCol c0 c1 c2 c3 ++
      mixCol d0 d1 d2 d3
  | _ => []

/-- AES InvMixColumns on the flat 16-byte state. -/
def invMixColumns (s : List Nat) : List Nat :=
  match s with
  | [a0, a1, a2, a3, b0, b1, b2, b3, c0, c1, c2, c3, d0, d1, d2, d3] =>
    invMixCol a0 a1 a2 a3 ++ invMixCol b0 b1 b2 b3 ++ invMixCol c0 c1 c2 c3 ++
      invMixCol d0 d1 d2 d3
  | _ => []

/-- AES AddRoundKey. -/
def addRoundKey (k s : List Nat) : List Nat := zipXor s k

/-- Rotate a 4-byte key word left by one byte. -/
def rotWord : List Nat → List Nat
  | a :: rest => rest ++ [a]
  | [] => []

/-- S-box substitution on a key word. -/
def subWord (w : List Nat) : List Nat := w.map sboxAt

/-- The AES round constants. -/
def aesRcon : List Nat := [1, 2, 4, 8, 16, 32, 64, 128, 27, 54]

/-- Key-expansion loop: extend the word list by `fuel` further words. -/
def expandGo : Nat → List (List Nat) → List (List Nat)
  | 0, ws => ws
  | fuel + 1, ws =>
    let i := ws.length
    let prev := ws.getD (i - 1) []
    let t :=
      if i % 4 = 0 then
        zipXor (subWord (rotWord prev)) [aesRcon.getD (i / 4 - 1) 0, 0, 0, 0]
      else prev
    expandGo fuel (ws ++ [zipXor (ws.getD (i - 4) []) t])

/-- The 44 expanded key words of an AES-128 key. -/
def keyWords (key : List Nat) : List (List Nat) :=
  expandGo 40 (chunkBy 4 key)

/-- The 11 16-byte round keys of an AES-128 key. -/
def roundKeys (key : List Nat) : List (List Nat) :=
  (chunkBy 4 (keyWords key)).map List.flatten

/-- One middle encryption round. -/
def encRound (s k : List Nat) : List Nat :=
  addRoundKey k (mixColumns (shiftRows (subBytes s)))

/-- AES-128 single-block encryption. -/
def encBlock (key block : List Nat) : List Nat :=
  let rks := roundKeys key
  addRoundKey (rks.getD 10 [])
    (shiftRows (subBytes
      (((rks.drop 1).take 9).foldl encRound (addRoundKey (rks.getD 0 []) block))))

/-- One middle decryption round (inverse of `encRound`). -/
def decRound (k s : List Nat) : List Nat :=
  invSubBytes (invShiftRows (invMixColumns (addRoundKey k s)))

/-- Inverse of the final encryption round. -/
def invFinalRound (k s : List Nat) : List Nat :=
  invSubBytes (invShiftRows (addRoundKey k s))

/-- AES-128 single-block decryption. -/
def decBlock (key block : List Nat) : List Nat :=
  let rks := roundKeys key
  addRoundKey (rks.getD 0 [])
    (List.foldr decRound (invFinalRound (rks.getD 10 []) block)
      ((rks.drop 1).take 9))

/-- Fuel-driven CBC encryption loop (structural on the fuel so the kernel can
evaluate it; one unit of fuel per block suffices). -/
def cbcEncryptGo (key : List Nat) : Nat → List Nat → List Nat → List Nat
  | _, _, [] => []
  | 0, _, _ :: _ => []
  | fuel + 1, prev, b :: bs =>
    let c := encBlock key (zipXor ((b :: bs).take 16) prev)
    c ++ cbcEncryptGo key fuel c ((b :: bs).drop 16)

/-- AES-CBC encryption of a block-aligned plaintext. -/
def cbcEncrypt (key prev pt : List Nat) : List Nat :=
  cbcEncryptGo key pt.length prev pt

/-- Fuel-driven CBC decryption loop. -/
def cbcDecryptGo (key : List Nat) : Nat → List Nat → List Nat → List Nat
  | _, _, [] => []
  | 0, _, _ :: _ => []
  | fuel + 1, prev, b :: bs =>
    zipXor (decBlock key ((b :: bs).take 16)) prev ++
      cbcDecryptGo key fuel ((b :: bs).take 16) ((b :: bs).drop 16)

/-- AES-CBC decryption of a block-aligned ciphertext. -/
def cbcDecrypt (key prev ct : List Nat) : List Nat :=
  cbcDecryptGo key ct.length prev ct

/-! ## PKCS#7 padding and base64 -/

/-- PKCS#7 padding to 16-byte blocks (`Crypto.Util.Padding.pad`). -/
def pkcs7Pad (bs : List Nat) : List Nat :=
  let k := 16 - bs.length % 16
  bs ++ List.replicate k k

/-- PKCS#7 unpadding; `none` models invalid padding. -/
def pkcs7Unpad (bs : List Nat) : Option (List Nat) :=
  match bs.getLast? with
  | none => none
  | some k =>
    if 1 ≤ k ∧ k ≤ 16 ∧ k ≤ bs.length ∧
        (bs.drop (bs.length - k)).all (fun b => b = k) then
      some (bs.take (bs.length - k))
    else none

/-- The base64 alphabet. -/
def b64Alphabet : List Char :=
  "ABCDEFGHIJKLMNOPQRSTUVWXYZabcdefghijklmnopqrstuvwxyz0123456789+/".toList

/-- The base64 character for a 6-bit value. -/
def b64Char (k : Nat) : Char := b64Alphabet.getD k 'A'

/-- The 6-bit value of a base64 character. -/
def b64Index (c : Char) : Option Nat := b64Alphabet.findIdx? (fun a => a == c)

/-- base64 encoding, three bytes to four characters with `=` padding. -/
def b64EncodeGo : List Nat → List Char
  | x :: y :: z :: rest =>
    b64Char (x / 4) :: b64Char (x % 4 * 16 + y / 16) ::
      b64Char (y % 16 * 4 + z / 64) :: b64Char (z % 64) :: b64EncodeGo rest
  | [x, y] => [b64Char (x / 4), b64Char (x % 4 * 16 + y / 16),
      b64Char (y % 16 * 4), '=']
  | [x] => [b64Char (x / 4), b64Char (x % 4 * 16), '=', '=']
  | [] => []

/-- Python `base64.b64encode(data).decode("utf-8")`. -/
def b64Encode (bs : List Nat) : String := String.mk (b64EncodeGo bs)

/-- base64 decoding, four characters to up to three bytes. -/
def b64DecodeGo : List Char → Option (List Nat)
  | [] => some []
  | c1 :: c2 :: c3 :: c4 :: rest =>
    if c3 = '=' then
      if c4 = '=' ∧ rest = [] then do
        let a ← b64Index c1
        let b ← b64Index c2
        pure [a * 4 + b / 16]
      else none
    else if c4 = '=' then
      if rest = [] then do
        let a ← b64Index c1
        let b ← b64Index c2
        let c ← b64Index c3
        pure [a * 4 + b / 16, b % 16 * 16 + c / 4]
      else none
    else do
      let a ← b64Index c1
      let b ← b64Index c2
      let c ← b64Index c3
      let d ← b64Index c4
      let tail ← b64DecodeGo rest
      pure ((a * 4 + b / 16) :: (b % 16 * 16 + c / 4) :: (c % 4 * 64 + d) :: tail)
  | _ => none

/-- base64 decoding of a string. -/
def b64Decode (s : String) : Option (List Nat) := b64DecodeGo s.toList

/-! ## `auth.py`: the credential cipher -/

/-- Source `derive_aes_key`: `MD5(random)[8:24].upper()` — literally, the uppercase
hex MD5 digest sliced at character offsets `[8:24)` (auth.py:24-30). -/
def derive_aes_key (random_str : String) : String :=
  let md5_hex := pythonUpper (md5HexDigest (utf8Encode random_str))
  pythonSlice md5_hex 8 24

/-- Source `encrypt_password`: AES/CBC/PKCS7 under the key derived from the nonce,
IV = the key's two 8-character halves swapped, base64 output (auth.py:33-45). -/
def encrypt_password (password random_str : String) : String :=
  let aes_key := derive_aes_key random_str
  let iv := pythonSlice aes_key 8 16 ++ pythonSlice aes_key 0 8
  b64Encode (cbcEncrypt (utf8Encode aes_key) (utf8Encode iv)
    (pkcs7Pad (utf8Encode password)))

/-- Source `compute_signature`: SHA-256 over the UTF-8 concatenation
`email + encrypted_pwd + random_str + secret`, lowercase hex (auth.py:48-54). -/
def compute_signature (email encrypted_pwd random_str secret : String) : String :=
  sha256HexDigest (utf8Encode (email ++ encrypted_pwd ++ random_str ++ secret))

/-! ## JSON values, serialization (`json.dumps`) and parsing (`json.loads`)

Numbers are modelled as integers: every numeric value this client ever
serializes or parses under the claims below is an integer (the telemetry feed
carries all values as strings). -/

/-- A JSON value. Objects keep key order (Python dicts preserve insertion
order). -/
inductive Json : Type
  | null : Json
  | bool (b : Bool) : Json
  | num (n : Int) : Json
  | str (s : String) : Json
  | arr (xs : List Json) : Json
  | obj (kvs : List (String × Json)) : Json

/-- Look a key up in a JSON object (`None` when missing or not an object). -/
def jGet (j : Json) (k : String) : Option Json :=
  match j with
  | .obj kvs => (kvs.find? (fun kv => kv.1 == k)).map (fun kv => kv.2)
  | _ => none

/-- Python `d.get(k, default)` on a JSON object. -/
def jGetD (j : Json) (k : String) (dflt : Json) : Json :=
  (jGet j k).getD dflt

/-- Whether a JSON value is exactly the given string. -/
def jIsStr (j : Json) (s : String) : Bool :=
  match j with
  | .str t => t == s
  | _ => false

/-- Hex digit (lowercase) for `json.dumps` unicode escapes. -/
def juHex (n : Nat) : List Char :=
  [hexChar (n / 4096 % 16), hexChar (n / 256 % 16), hexChar (n / 16 % 16),
   hexChar (n % 16)]

/-- Escape one character as `json.dumps` does with `ensure_ascii=True`. -/
def jEscapeChar (c : Char) : List Char :=
  if c = '"' then ['\\', '"']
  else if c = '\\' then ['\\', '\\']
  else if c = '\n' then ['\\', 'n']
  else if c = '\t' then ['\\', 't']
  else if c = '\r' then ['\\', 'r']
  else if c = '\x08' then ['\\', 'b']
  else if c = '\x0c' then ['\\', 'f']
  else if c.toNat < 0x20 ∨ c.toNat > 0x7e then
    if c.toNat < 0x10000 then '\\' :: 'u' :: juHex c.toNat
    else
      '\\' :: 'u' :: juHex (0xD800 + (c.toNat - 0x10000) / 0x400) ++
        '\\' :: 'u' :: juHex (0xDC00 + (c.toNat - 0x10000) % 0x400)
  else [c]

/-- Serialize a string literal as `json.dumps` does. -/
def jDumpString (s : String) : String :=
  String.mk ('"' :: (s.toList.map jEscapeChar).flatten ++ ['"'])

mutual

/-- Python `json.dumps` with default separators. -/
def jsonDumps : Json → String
  | .null => "null"
  | .bool true => "true"
  | .bool false => "false"
  | .num n => toString n
  | .str s => jDumpString s
  | .arr xs => "[" ++ jsonDumpsList xs ++ "]"
  | .obj kvs => "\x7b" ++ jsonDumpsObj kvs ++ "\x7d"

/-- Comma-separated serialization of array elements. -/
def jsonDumpsList : List Json → String
  | [] => ""
  | [x] => jsonDumps x
  | x :: y :: rest => jsonDumps x ++ ", " ++ jsonDumpsList (y :: rest)

/-- Comma-separated serialization of object members. -/
def jsonDumpsObj : List (String × Json) → String
  | [] => ""
  | [(k, v)] => jDumpString k ++ ": " ++ jsonDumps v
  | (k, v) :: m :: rest =>
    jDumpString k ++ ": " ++ jsonDumps v ++ ", " ++ jsonDumpsObj (m :: rest)

end

/-- JSON whitespace skipping. -/
def jSkip (cs : List Char) : List Char :=
  cs.dropWhile (fun c => c = ' ' || c = '\t' || c = '\n' || c = '\r')

/-- Whether a character is a hex digit. -/
def isHexDigitChar (c : Char) : Bool :=
  c.isDigit || (97 ≤ c.toNat && c.toNat ≤ 102) || (65 ≤ c.toNat && c.toNat ≤ 70)

/-- The value of a hex digit character. -/
def hexVal (c : Char) : Nat :=
  if c.isDigit then c.toNat - 48
  else if c.toNat ≥ 97 then c.toNat - 87
  else c.toNat - 55

/-- Parse a JSON string body (after the opening quote). -/
def jParseStringGo (acc : List Char) : List Char → Option (String × List Char)
  | '"' :: rest => some (String.mk acc.reverse, rest)
  | '\\' :: 'u' :: a :: b :: c :: d :: rest =>
    if isHexDigitChar a && isHexDigitChar b && isHexDigitChar c &&
        isHexDigitChar d then
      jParseStringGo
        (Char.ofNat (4096 * hexVal a + 256 * hexVal b + 16 * hexVal c + hexVal d)
          :: acc) rest
    else none
  | '\\' :: e :: rest =>
    if e = '"' then jParseStringGo ('"' :: acc) rest
    else if e = '\\' then jParseStringGo ('\\' :: acc) rest
    else if e = '/' then jParseStringGo ('/' :: acc) rest
    else if e = 'n' then jParseStringGo ('\n' :: acc) rest
    else if e = 't' then jParseStringGo ('\t' :: acc) rest
    else if e = 'r' then jParseStringGo ('\r' :: acc) rest
    else if e = 'b' then jParseStringGo ('\x08' :: acc) rest
    else if e = 'f' then jParseStringGo ('\x0c' :: acc) rest
    else none
  | c :: rest => if c.toNat < 0x20 then none else jParseStringGo (c :: acc) rest
  | [] => none

/-- Parse a run of decimal digits. -/
def jDigits (acc : Nat) : List Char → Nat × List Char
  | c :: rest =>
    if c.isDigit then jDigits (acc * 10 + (c.toNat - 48)) rest else (acc, c :: rest)
  | [] => (acc, [])

mutual

/-- Fuel-indexed JSON value parser. -/
def jParseVal : Nat → List Char → Option (Json × List Char)
  | 0, _ => none
  | fuel + 1, cs =>
    match jSkip cs with
    | 'n' :: 'u' :: 'l' :: 'l' :: rest => some (.null, rest)
    | 't' :: 'r' :: 'u' :: 'e' :: rest => some (.bool true, rest)
    | 'f' :: 'a' :: 'l' :: 's' :: 'e' :: rest => some (.bool false, rest)
    | '"' :: rest =>
      (jParseStringGo [] rest).map (fun p => (.str p.1, p.2))
    | '[' :: rest =>
      (match jSkip rest with
       | ']' :: rest2 => some (.arr [], rest2)
       | other => (jParseArrGo fuel other).map (fun p => (.arr p.1, p.2)))
    | '\x7b' :: rest =>
      (match jSkip rest with
       | '\x7d' :: rest2 => some (.obj [], rest2)
       | other => (jParseObjGo fuel other).map (fun p => (.obj p.1, p.2)))
    | '-' :: c :: rest =>
      if c.isDigit then
        let p := jDigits (c.toNat - 48) rest
        some (.num (-(Int.ofNat p.1)), p.2)
      else none
    | c :: rest =>
      if c.isDigit then
        let p := jDigits (c.toNat - 48) rest
        some (.num (Int.ofNat p.1), p.2)
      else none
    | [] => none

/-- Parse the elements of a non-empty JSON array. -/
def jParseArrGo : Nat → List Char → Option (List Json × List Char)
  | 0, _ => none
  | fuel + 1, cs =>
    match jParseVal fuel cs with
    | none => none
    | some (v, r) =>
      match jSkip r with
      | ',' :: r2 =>
        (jParseArrGo fuel r2).map (fun p => (v :: p.1, p.2))
      | ']' :: r2 => some ([v], r2)
      | _ => none

/-- Parse the members of a non-empty JSON object. -/
def jParseObjGo : Nat → List Char → Option (List (String × Json) × List Char)
  | 0, _ => none
  | fuel + 1, cs =>
    match jSkip cs with
    | '"' :: r0 =>
      match jParseStringGo [] r0 with
      | none => none
      | some (k, r1) =>
        match jSkip r1 with
        | ':' :: r2 =>
          match jParseVal fuel r2 with
          | none => none
          | some (v, r3) =>
            match jSkip r3 with
            | ',' :: r4 =>
              (jParseObjGo fuel r4).map (fun p => ((k, v) :: p.1, p.2))
            | '\x7d' :: r4 => some ([(k, v)], r4)
            | _ => none
        | _ => none
    | _ => none

end

/-- Python `json.loads`: parse, requiring full consumption; `None` models a
raised `json.JSONDecodeError`. -/
def jsonLoads (s : String) : Option Json :=
  match jParseVal (s.length + 2) s.toList with
  | some (v, rest) => if jSkip rest = [] then some v else none
  | none => none

/-! ## `models.py`: the property codec -/

/-- One wire property record, a dict with the keys `DeviceProperties.from_api`
reads (`resourceValce` is the upstream API's own typo). A missing key models
the dict lacking it (`dict.get` default applies). -/
structure PropItem where
  resourceCode : Option String := none
  resourceValce : Option String := none
  dataType : Option String := none

/-- Decoded device properties (`models.py:46-77`); `none` is an unset field. -/
structure DeviceProperties where
  battery_percentage : Option Int := none
  total_input_power : Option Int := none
  total_output_power : Option Int := none
  ac_switch : Option Bool := none
  dc_switch : Option Bool := none
  ups_status : Option Bool := none
  remain_charging_time : Option Int := none
  remain_discharging_time : Option Int := none
  ac_output : Option Json := none
  dc_output : Option Json := none
  ac_input : Option Json := none
  dc_input : Option Json := none
  raw : List PropItem := []

/-- The recognized resource codes of `DeviceProperties._apply`. -/
inductive PropCode : Type
  | batteryPercentage | totalInputPower | totalOutputPower
  | acSwitch | dcSwitch | upsStatus
  | remainChargingTime | remainTime
  | acDataOutput | dcDataOutput | acDataInput | dcDataInput

/-- The `if code == ...: / elif ...` dispatch chain of
`DeviceProperties._apply` (models.py:95-118), in source order. -/
def propCodeOf (code : String) : Option PropCode :=
  if code = "battery_percentage" then some .batteryPercentage
  else if code = "total_input_power" then some .totalInputPower
  else if code = "total_output_power" then some .totalOutputPower
  else if code = "ac_switch_hm" then some .acSwitch
  else if code = "dc_switch_hm" then some .dcSwitch
  else if code = "ups_status_hm" then some .upsStatus
  else if code = "remain_charging_time" then some .remainChargingTime
  else if code = "remain_time" then some .remainTime
  else if code = "ac_data_output_hm" then some .acDataOutput
  else if code = "dc_data_output_hm" then some .dcDataOutput
  else if code = "ac_data_input_hm" then some .acDataInput
  else if code = "dc_data_input_hm" then some .dcDataInput
  else none

/-- Source `DeviceProperties._apply` (models.py:93-118): set one field by
resource code; `.error ()` models a raised `ValueError`/`JSONDecodeError`;
an unrecognized code leaves everything unchanged. -/
def applyProp (props : DeviceProperties) (code value data_type : String) :
    Except Unit DeviceProperties :=
  match propCodeOf code with
  | some .batteryPercentage =>
    match pythonInt value with
    | some n => .ok { props with battery_percentage := some n }
    | none => .error ()
  | some .totalInputPower =>
    match pythonInt value with
    | some n => .ok { props with total_input_power := some n }
    | none => .error ()
  | some .totalOutputPower =>
    match pythonInt value with
    | some n => .ok { props with total_output_power := some n }
    | none => .error ()
  | some .acSwitch =>
    .ok { props with ac_switch := some (pythonLower value == "true") }
  | some .dcSwitch =>
    .ok { props with dc_switch := some (pythonLower value == "true") }
  | some .upsStatus =>
    .ok { props with ups_status := some (pythonLower value == "true") }
  | some .remainChargingTime =>
    match pythonInt value with
    | some n => .ok { props with remain_charging_time := some n }
    | none => .error ()
  | some .remainTime =>
    match pythonInt value with
    | some n => .ok { props with remain_discharging_time := some n }
    | none => .error ()
  | some .acDataOutput =>
    if data_type = "STRUCT" then
      match jsonLoads value with
      | some j => .ok { props with ac_output := some j }
      | none => .error ()
    else .ok { props with ac_output := none }
  | some .dcDataOutput =>
    if data_type = "STRUCT" then
      match jsonLoads value with
      | some j => .ok { props with dc_output := some j }
      | none => .error ()
    else .ok { props with dc_output := none }
  | some .acDataInput =>
    if data_type = "STRUCT" then
      match jsonLoads value with
      | some j => .ok { props with ac_input := some j }
      | none => .error ()
    else .ok { props with ac_input := none }
  | some .dcDataInput =>
    if data_type = "STRUCT" then
      match jsonLoads value with
      | some j => .ok { props with dc_input := some j }
      | none => .error ()
    else .ok { props with dc_input := none }
  | none => .ok props

/-- One iteration of the `DeviceProperties.from_api` loop (models.py:83-90):
a parse failure is caught and leaves the accumulated properties unchanged. -/
def propsStep (props : DeviceProperties) (item : PropItem) : DeviceProperties :=
  match applyProp props (item.resourceCode.getD "") (item.resourceValce.getD "")
      (item.dataType.getD "") with
  | .ok p => p
  | .error _ => props

/-- Source `DeviceProperties.from_api` (models.py:79-91): fold the records
over `_apply`, retaining the input verbatim as `raw`. -/
def DeviceProperties.from_api (tsl_info : List PropItem) : DeviceProperties :=
  tsl_info.foldl propsStep { raw := tsl_info }

/-- Source `DeviceProperties.get_by_code` (models.py:120-125). -/
def DeviceProperties.get_by_code (props : DeviceProperties)
    (resource_code : String) : Option String :=
  match props.raw.find? (fun item => item.resourceCode == some resource_code) with
  | some item => item.resourceValce
  | none => none

/-- The `data` sub-dict of a batch-control response entry. -/
structure CrData where
  productKey : Option String := none
  deviceKey : Option String := none

/-- One batch-control response entry. -/
structure CrItem where
  data : Option CrData := none
  ticket : Option String := none
  msg : Option String := none

/-- A `batchControlDevice` response payload; `none` lists model missing or
null keys (`response.get(...) or []`). -/
structure BatchResponse where
  successList : Option (List CrItem) := none
  failureList : Option (List CrItem) := none

/-- Result of a device command (models.py:128-134). -/
structure CommandResult where
  success : Bool
  ticket : Option String := none
  error_message : Option String := none

/-- Whether a response entry's `data` matches the target device pair
(models.py:141 and 146). -/
def crMatches (product_key device_key : String) (item : CrItem) : Bool :=
  let d := item.data.getD {}
  d.productKey == some product_key && d.deviceKey == some device_key

/-- Source `CommandResult.from_api` (models.py:136-149): scan `successList`
first, then `failureList`, else the synthetic not-found failure. -/
def CommandResult.from_api (response : BatchResponse)
    (product_key device_key : String) : CommandResult :=
  match (response.successList.getD []).find? (crMatches product_key device_key) with
  | some item => { success := true, ticket := item.ticket }
  | none =>
    match (response.failureList.getD []).find?
        (crMatches product_key device_key) with
    | some item => { success := false, error_message := item.msg }
    | none =>
      { success := false,
        error_message := some "Device not found in API response" }

/-- A Thing Specification property definition (models.py:152-160). Field
values stay as the JSON values the wire carried (Python does not coerce). -/
structure TslProperty where
  code : Json
  name : Json
  data_type : Json
  sub_type : Json
  writable : Bool

/-- Source `TslProperty.from_api` (models.py:162-172); `.error ()` models the
`AttributeError` a non-dict entry raises. -/
def TslProperty.from_api (data : Json) : Except Unit TslProperty :=
  match data with
  | .obj _ =>
    let sub_type := jGetD data "subType" (.str "R")
    .ok { code := jGetD data "code" (jGetD data "resourceCode" (.str "")),
          name := jGetD data "name" (.str ""),
          data_type := jGetD data "dataType" (.str ""),
          sub_type := sub_type,
          writable := jIsStr sub_type "RW" || jIsStr sub_type "W" }
  | _ => .error ()

/-! ## `exceptions.py`: the error taxonomy -/

/-- The exception kinds the client raises. -/
inductive ExcKind : Type
  | pecronAPIError : ExcKind
  | authenticationError : ExcKind
  | deviceNotFoundError : ExcKind
  | commandError : ExcKind
  | keyError : ExcKind
deriving DecidableEq

/-- The direct base class of each exception kind as declared in
`exceptions.py` (`keyError` is Python's builtin, not a `PecronAPIError`). -/
def parentExc : ExcKind → Option ExcKind
  | .pecronAPIError => none
  | .authenticationError => some .pecronAPIError
  | .deviceNotFoundError => some .pecronAPIError
  | .commandError => some .pecronAPIError
  | .keyError => none

/-- Whether an `except target:` clause catches kind `k` (reflexive or via the
declared base class). -/
def catchesAs (k target : ExcKind) : Bool :=
  k = target ||
    match parentExc k with
    | some p => p = target
    | none => false

/-- A raised exception: kind plus the `message`/`code` payload of
`PecronAPIError.__init__`. -/
structure PyExc where
  kind : ExcKind
  message : String := ""
  code : Option Int := none

/-! ## `client.py`: the session layer -/

/-- The upstream response envelope `{code, msg, data}` (spec section 6);
`code = none` models a missing `code` key. -/
structure Envelope where
  code : Option Int := none
  msg : String := ""
  data : Json := .null

/-- Source `PecronAPI._request` (client.py:58-85), applied to a decoded
envelope: a non-200 application code raises `PecronAPIError`. -/
def requestResult (resp : Envelope) : Except PyExc Json :=
  if resp.code = some 200 then .ok resp.data
  else .error { kind := .pecronAPIError, message := resp.msg, code := resp.code }

/-- The session's token state (client.py:40-41); tokens are whatever JSON
value the login payload carried. -/
structure SessionTokens where
  access_token : Option Json := none
  refresh_token : Option Json := none

/-- Source `PecronAPI.login` (client.py:87-123) applied to the login
response envelope: on API failure re-raise as `AuthenticationError`; on
success read `result["accessToken"]["token"]` then
`result["refreshToken"]["token"]`, assigning in that order (a missing key
raises `KeyError` midway, after the first assignment). -/
def loginStep (st : SessionTokens) (resp : Envelope) :
    SessionTokens × Except PyExc Unit :=
  match requestResult resp with
  | .error exc =>
    (st, .error { kind := .authenticationError, message := exc.message,
                  code := exc.code })
  | .ok result =>
    match (jGet result "accessToken").bind (fun a => jGet a "token") with
    | none => (st, .error { kind := .keyError })
    | some a =>
      let st1 := { st with access_token := some a }
      match (jGet result "refreshToken").bind (fun r => jGet r "token") with
      | none => (st1, .error { kind := .keyError })
      | some r => ({ st1 with refresh_token := some r }, .ok ())

/-- Source `PecronAPI.get_device_properties` error mapping (client.py:139-148):
map an upstream 404/4004 code to `DeviceNotFoundError`, re-raise anything
else unchanged; on success pass the payload through. -/
def getDevicePropsResult (resp : Envelope) : Except PyExc Json :=
  match requestResult resp with
  | .error exc =>
    match exc.code with
    | some c =>
      if c ≠ 0 ∧ (c = 404 ∨ c = 4004) then
        .error { kind := .deviceNotFoundError, message := exc.message,
                 code := exc.code }
      else .error exc
    | none => .error exc
  | .ok result => .ok result

/-- A device (models.py:12-26); only the identity pair matters here. -/
structure Device where
  device_name : String := ""
  product_key : String := ""
  device_key : String := ""

/-- Shape dispatch of `PecronAPI.get_product_tsl` (client.py:179-191):
extract the raw property-entry list from any of the three response shapes;
`.error ()` models `json.loads` raising on a malformed `tslJson` string. -/
def tslRawProps (result : Json) : Except Unit Json :=
  match result with
  | .obj _ =>
    match jGet result "tslJson" with
    | some (.str s) =>
      match jsonLoads s with
      | some t1 =>
        match t1 with
        | .obj _ => .ok (jGetD t1 "properties" (.arr []))
        | _ => .ok (jGetD result "properties" (.arr []))
      | none => .error ()
    | some t1 =>
      match t1 with
      | .obj _ => .ok (jGetD t1 "properties" (.arr []))
      | _ => .ok (jGetD result "properties" (.arr []))
    | none => .ok (jGetD result "properties" (.arr []))
  | .arr _ => .ok result
  | _ => .ok (.arr [])

/-- Source `PecronAPI.get_product_tsl` parsing (client.py:179-194): shape
dispatch, then `TslProperty.from_api` on each entry (iterating a dict yields
its keys; iterating a scalar raises). -/
def getProductTslParse (result : Json) : Except Unit (List TslProperty) := do
  let raw ← tslRawProps result
  match raw with
  | .arr items => items.mapM TslProperty.from_api
  | .obj kvs => (kvs.map (fun kv => Json.str kv.1)).mapM TslProperty.from_api
  | _ => .error ()

/-- Source `PecronAPI.set_device_property` request body (client.py:212-227):
`data` is itself a JSON-encoded string inside the JSON-encoded form value. -/
def batchParamJson (device : Device) (properties : List (String × Json)) :
    String :=
  let data_list := Json.arr (properties.map (fun kv => Json.obj [(kv.1, kv.2)]))
  let batch_param := Json.obj
    [("data", Json.str (jsonDumps data_list)),
     ("deviceList", Json.arr
       [Json.obj [("productKey", .str device.product_key),
                  ("deviceKey", .str device.device_key)]]),
     ("type", Json.num 0)]
  jsonDumps batch_param

/-- The form body `set_device_property` submits: a single `json` field. -/
def setDevicePropertyForm (device : Device)
    (properties : List (String × Json)) : List (String × String) :=
  [("json", batchParamJson device properties)]

/-- The claim's reading of the `batchControlDevice` body: `data` as a plain
JSON array of single-key objects (this is what the spec asserts; the source
double-encodes). Written from the claim's words, for comparison. -/
def claimedBatchParamJson (device : Device)
    (properties : List (String × Json)) : String :=
  jsonDumps (Json.obj
    [("data", Json.arr (properties.map (fun kv => Json.obj [(kv.1, kv.2)]))),
     ("deviceList", Json.arr
       [Json.obj [("productKey", .str device.product_key),
                  ("deviceKey", .str device.device_key)]]),
     ("type", Json.num 0)])

/-- The amended reading: `data` is a string member holding the JSON encoding
of the single-key-object list (written out independently of
`batchParamJson`, following the amended claim's words). -/
def amendedBatchParamJson (device : Device)
    (properties : List (String × Json)) : String :=
  jsonDumps (Json.obj
    [("data", Json.str
        (jsonDumps (Json.arr (properties.map (fun kv => Json.obj [(kv.1, kv.2)]))))),
     ("deviceList", Json.arr
       [Json.obj [("productKey", .str device.product_key),
                  ("deviceKey", .str device.device_key)]]),
     ("type", Json.num 0)])

/-- The lowercase hex alphabet. -/
def hexDigitsLower : List Char := "0123456789abcdef".toList

/-! # Theorems -/

/-! ## Hex and digest shape lemmas -/

theorem hexOfBytes_cons (b : Nat) (t : List Nat) :
    hexOfBytes (b :: t) = hexChar (b / 16) :: hexChar (b % 16) :: hexOfBytes t := by
  simp [hexOfBytes]

theorem length_hexOfBytes (bs : List Nat) :
    (hexOfBytes bs).length = 2 * bs.length := by
  induction bs with
  | nil => rfl
  | cons b t ih => rw [hexOfBytes_cons]; simp [ih]; omega

theorem hexChar_mem_fin : ∀ k : Fin 16, hexChar k.val ∈ hexDigitsLower := by
  decide

theorem hexChar_mem {k : Nat} (hk : k < 16) : hexChar k ∈ hexDigitsLower :=
  hexChar_mem_fin ⟨k, hk⟩

theorem mem_hexOfBytes {c : Char} {bs : List Nat} (hb : ∀ b ∈ bs, b < 256)
    (hc : c ∈ hexOfBytes bs) : c ∈ hexDigitsLower := by
  induction bs with
  | nil => simp [hexOfBytes] at hc
  | cons b t ih =>
    rw [hexOfBytes_cons] at hc
    have hblt : b < 256 := hb b (by simp)
    simp only [List.mem_cons] at hc
    rcases hc with h | h | h
    · exact h ▸ hexChar_mem (by omega)
    · exact h ▸ hexChar_mem (by omega)
    · exact ih (fun x hx => hb x (by simp [hx])) h

theorem length_md5Bytes (msg : List Nat) : (md5Bytes msg).length = 16 := by
  simp [md5Bytes, bytesLE4]

theorem mem_md5Bytes_lt (msg : List Nat) : ∀ b ∈ md5Bytes msg, b < 256 := by
  intro b hb
  simp [md5Bytes, bytesLE4] at hb
  rcases hb with h | h | h | h | h | h | h | h | h | h | h | h | h | h | h | h <;>
    omega

theorem length_sha256Bytes (msg : List Nat) : (sha256Bytes msg).length = 32 := by
  simp [sha256Bytes, bytesBE4]

theorem mem_sha256Bytes_lt (msg : List Nat) : ∀ b ∈ sha256Bytes msg, b < 256 := by
  intro b hb
  simp [sha256Bytes, bytesBE4] at hb
  rcases hb with h | h | h | h | h | h | h | h | h | h | h | h | h | h | h | h |
    h | h | h | h | h | h | h | h | h | h | h | h | h | h | h | h <;> omega

theorem toList_mk (cs : List Char) : (String.mk cs).toList = cs := rfl

theorem length_mk (cs : List Char) : (String.mk cs).length = cs.length := rfl

theorem toUpper_toUpper_hex :
    ∀ c ∈ hexDigitsLower, Char.toUpper (Char.toUpper c) = Char.toUpper c := by
  decide

/-! ## Credential-cipher round-trip lemmas (AES, CBC, PKCS7, base64, UTF-8) -/

theorem two_mul_eq_shiftLeft (z : Nat) : 2 * z = z <<< 1 := by
  rw [Nat.shiftLeft_eq]
  omega

theorem mulTwoModXor (x y : Nat) :
    2 * (x ^^^ y) % 256 = 2 * x % 256 ^^^ 2 * y % 256 := by
  apply Nat.eq_of_testBit_eq
  intro i
  rw [two_mul_eq_shiftLeft, two_mul_eq_shiftLeft, two_mul_eq_shiftLeft]
  simp only [show (256 : Nat) = 2 ^ 8 from rfl]
  simp only [Nat.testBit_mod_two_pow, Nat.testBit_xor, Nat.testBit_shiftLeft]
  cases h1 : decide (1 ≤ i) <;> cases h2 : decide (i < 8) <;>
    cases hb1 : x.testBit (i - 1) <;> cases hb2 : y.testBit (i - 1) <;> simp

theorem xor_left_comm (a b c : Nat) : a ^^^ (b ^^^ c) = b ^^^ (a ^^^ c) := by
  rw [← Nat.xor_assoc, Nat.xor_comm a b, Nat.xor_assoc]

theorem xtime_linear (x y : Nat) : xtime (x ^^^ y) = xtime x ^^^ xtime y := by
  unfold xtime
  rw [Nat.testBit_xor, mulTwoModXor]
  rcases hx : x.testBit 7 <;> rcases hy : y.testBit 7 <;>
    simp [hx, hy, Nat.xor_assoc, Nat.xor_comm, xor_left_comm, Nat.xor_cancel_left]

theorem xtime_lt (b : Nat) : xtime b < 256 := by
  unfold xtime
  have h1 : 2 * b % 256 < 2 ^ 8 := by omega
  have h2 : (if b.testBit 7 then 27 else 0) < 2 ^ 8 := by split <;> omega
  exact Nat.xor_lt_two_pow h1 h2

theorem xtime_zero : xtime 0 = 0 := rfl

theorem gmul2_linear (x y : Nat) : gmul2 (x ^^^ y) = gmul2 x ^^^ gmul2 y :=
  xtime_linear x y

theorem gmul3_linear (x y : Nat) : gmul3 (x ^^^ y) = gmul3 x ^^^ gmul3 y := by
  unfold gmul3
  rw [xtime_linear]
  simp [Nat.xor_assoc, Nat.xor_comm, xor_left_comm]

theorem gmul9_linear (x y : Nat) : gmul9 (x ^^^ y) = gmul9 x ^^^ gmul9 y := by
  unfold gmul9
  simp only [xtime_linear]
  simp [Nat.xor_assoc, Nat.xor_comm, xor_left_comm]

theorem gmul11_linear (x y : Nat) : gmul11 (x ^^^ y) = gmul11 x ^^^ gmul11 y := by
  unfold gmul11
  simp only [xtime_linear]
  simp [Nat.xor_assoc, Nat.xor_comm, xor_left_comm]

theorem gmul13_linear (x y : Nat) : gmul13 (x ^^^ y) = gmul13 x ^^^ gmul13 y := by
  unfold gmul13
  simp only [xtime_linear]
  simp [Nat.xor_assoc, Nat.xor_comm, xor_left_comm]

theorem gmul14_linear (x y : Nat) : gmul14 (x ^^^ y) = gmul14 x ^^^ gmul14 y := by
  unfold gmul14
  simp only [xtime_linear]
  simp [Nat.xor_assoc, Nat.xor_comm, xor_left_comm]

theorem xor_lt_256 (a b : Nat) (ha : a < 256) (hb : b < 256) :
    a ^^^ b < 256 := by
  have := Nat.xor_lt_two_pow (show a < 2 ^ 8 by omega) (show b < 2 ^ 8 by omega)
  simpa using this

theorem gmul_lt (b : Nat) (hb : b < 256) : gmul2 b < 256 ∧ gmul3 b < 256 ∧
    gmul9 b < 256 ∧ gmul11 b < 256 ∧ gmul13 b < 256 ∧ gmul14 b < 256 := by
  refine ⟨xtime_lt b, ?_, ?_, ?_, ?_, ?_⟩ <;>
    simp only [gmul3, gmul9, gmul11, gmul13, gmul14] <;>
    repeat' first
      | exact xtime_lt _
      | omega
      | apply xor_lt_256

theorem sbox_fin_facts : ∀ i : Fin 256,
    sboxAt i.val < 256 ∧ invSboxAt i.val < 256 ∧
    invSboxAt (sboxAt i.val) = i.val := by decide

theorem sboxAt_lt (b : Nat) : sboxAt b < 256 := by
  by_cases hb : b < 256
  · exact (sbox_fin_facts ⟨b, hb⟩).1
  · unfold sboxAt
    rw [List.getD_eq_default]
    · omega
    · have : aesSbox.length = 256 := rfl
      omega

theorem invSboxAt_lt (b : Nat) : invSboxAt b < 256 := by
  by_cases hb : b < 256
  · exact (sbox_fin_facts ⟨b, hb⟩).2.1
  · unfold invSboxAt
    rw [List.getD_eq_default]
    · omega
    · have : aesInvSbox.length = 256 := rfl
      omega

theorem invSboxAt_sboxAt (b : Nat) (hb : b < 256) :
    invSboxAt (sboxAt b) = b :=
  (sbox_fin_facts ⟨b, hb⟩).2.2

theorem zipXor_length (a b : List Nat) :
    (zipXor a b).length = min a.length b.length := by
  simp [zipXor]

theorem zipXor_lt (a b : List Nat) (ha : ∀ x ∈ a, x < 256)
    (hb : ∀ x ∈ b, x < 256) : ∀ x ∈ zipXor a b, x < 256 := by
  induction a generalizing b with
  | nil => simp [zipXor]
  | cons x t ih =>
    cases b with
    | nil => simp [zipXor]
    | cons y u =>
      intro z hz
      simp only [zipXor, List.zipWith_cons_cons, List.mem_cons] at hz
      rcases hz with rfl | hz
      · exact xor_lt_256 _ _ (ha x (by simp)) (hb y (by simp))
      · exact ih u (fun w hw => ha w (by simp [hw]))
          (fun w hw => hb w (by simp [hw])) z hz

theorem zipXor_cancel_right (a b : List Nat) (h : a.length = b.length) :
    zipXor (zipXor a b) b = a := by
  induction a generalizing b with
  | nil => simp [zipXor]
  | cons x t ih =>
    cases b with
    | nil => simp at h
    | cons y u =>
      simp only [zipXor, List.zipWith_cons_cons]
      simp only [List.length_cons] at h
      rw [Nat.xor_cancel_right]
      have := ih u (by omega)
      simp only [zipXor] at this
      rw [this]

theorem exists_sixteen (s0 : List Nat) (h : s0.length = 16) :
    ∃ b0 b1 b2 b3 b4 b5 b6 b7 b8 b9 b10 b11 b12 b13 b14 b15,
      s0 = [b0, b1, b2, b3, b4, b5, b6, b7, b8, b9, b10, b11, b12, b13, b14, b15] := by
  have hx0 : ∃ x t, s0 = x :: t := by
    cases s0 with
    | nil => simp only [List.length_nil] at h; omega
    | cons x t => exact ⟨x, t, rfl⟩
  obtain ⟨b0, s1, rfl⟩ := hx0
  simp only [List.length_cons] at h
  have hx1 : ∃ x t, s1 = x :: t := by
    cases s1 with
    | nil => simp only [List.length_nil] at h; omega
    | cons x t => exact ⟨x, t, rfl⟩
  obtain ⟨b1, s2, rfl⟩ := hx1
  simp only [List.length_cons] at h
  have hx2 : ∃ x t, s2 = x :: t := by
    cases s2 with
    | nil => simp only [List.length_nil] at h; omega
    | cons x t => exact ⟨x, t, rfl⟩
  obtain ⟨b2, s3, rfl⟩ := hx2
  simp only [List.length_cons] at h
  have hx3 : ∃ x t, s3 = x :: t := by
    cases s3 with
    | nil => simp only [List.length_nil] at h; omega
    | cons x t => exact ⟨x, t, rfl⟩
  obtain ⟨b3, s4, rfl⟩ := hx3
  simp only [List.length_cons] at h
  have hx4 : ∃ x t, s4 = x :: t := by
    cases s4 with
    | nil => simp only [List.length_nil] at h; omega
    | cons x t => exact ⟨x, t, rfl⟩
  obtain ⟨b4, s5, rfl⟩ := hx4
  simp only [List.length_cons] at h
  have hx5 : ∃ x t, s5 = x :: t := by
    cases s5 with
    | nil => simp only [List.length_nil] at h; omega
    | cons x t => exact ⟨x, t, rfl⟩
  obtain ⟨b5, s6, rfl⟩ := hx5
  simp only [List.length_cons] at h
  have hx6 : ∃ x t, s6 = x :: t := by
    cases s6 with
    | nil => simp only [List.length_nil] at h; omega
    | cons x t => exact ⟨x, t, rfl⟩
  obtain ⟨b6, s7, rfl⟩ := hx6
  simp only [List.length_cons] at h
  have hx7 : ∃ x t, s7 = x :: t := by
    cases s7 with
    | nil => simp only [List.length_nil] at h; omega
    | cons x t => exact ⟨x, t, rfl⟩
  obtain ⟨b7, s8, rfl⟩ := hx7
  simp only [List.length_cons] at h
  have hx8 : ∃ x t, s8 = x :: t := by
    cases s8 with
    | nil => simp only [List.length_nil] at h; omega
    | cons x t => exact ⟨x, t, rfl⟩
  obtain ⟨b8, s9, rfl⟩ := hx8
  simp only [List.length_cons] at h
  have hx9 : ∃ x t, s9 = x :: t := by
    cases s9 with
    | nil => simp only [List.length_nil] at h; omega
    | cons x t => exact ⟨x, t, rfl⟩
  obtain ⟨b9, s10, rfl⟩ := hx9
  simp only [List.length_cons] at h
  have hx10 : ∃ x t, s10 = x :: t := by
    cases s10 with
    | nil => simp only [List.length_nil] at h; omega
    | cons x t => exact ⟨x, t, rfl⟩
  obtain ⟨b10, s11, rfl⟩ := hx10
  simp only [List.length_cons] at h
  have hx11 : ∃ x t, s11 = x :: t := by
    cases s11 with
    | nil => simp only [List.length_nil] at h; omega
    | cons x t => exact ⟨x, t, rfl⟩
  obtain ⟨b11, s12, rfl⟩ := hx11
  simp only [List.length_cons] at h
  have hx12 : ∃ x t, s12 = x :: t := by
    cases s12 with
    | nil => simp only [List.length_nil] at h; omega
    | cons x t => exact ⟨x, t, rfl⟩
  obtain ⟨b12, s13, rfl⟩ := hx12
  simp only [List.length_cons] at h
  have hx13 : ∃ x t, s13 = x :: t := by
    cases s13 with
    | nil => simp only [List.length_nil] at h; omega
    | cons x t => exact ⟨x, t, rfl⟩
  obtain ⟨b13, s14, rfl⟩ := hx13
  simp only [List.length_cons] at h
  have hx14 : ∃ x t, s14 = x :: t := by
    cases s14 with
    | nil => simp only [List.length_nil] at h; omega
    | cons x t => exact ⟨x, t, rfl⟩
  obtain ⟨b14, s15, rfl⟩ := hx14
  simp only [List.length_cons] at h
  have hx15 : ∃ x t, s15 = x :: t := by
    cases s15 with
    | nil => simp only [List.length_nil] at h; omega
    | cons x t => exact ⟨x, t, rfl⟩
  obtain ⟨b15, s16, rfl⟩ := hx15
  simp only [List.length_cons] at h
  have hnil : s16 = [] := by
    cases s16 with
    | nil => rfl
    | cons x t => simp only [List.length_cons, List.length_nil] at h; omega
  subst hnil
  exact ⟨b0, b1, b2, b3, b4, b5, b6, b7, b8, b9, b10, b11, b12, b13, b14, b15, by simp only [List.length_nil] at h; rfl⟩

theorem subBytes_length (s : List Nat) : (subBytes s).length = s.length := by
  simp [subBytes]

theorem subBytes_lt (s : List Nat) : ∀ b ∈ subBytes s, b < 256 := by
  intro b hb
  simp only [subBytes, List.mem_map] at hb
  obtain ⟨x, _, rfl⟩ := hb
  exact sboxAt_lt x

theorem invSubBytes_subBytes (s : List Nat) (hv : ∀ b ∈ s, b < 256) :
    invSubBytes (subBytes s) = s := by
  simp only [subBytes, invSubBytes, List.map_map]
  show List.map (fun b => invSboxAt (sboxAt b)) s = s
  have : ∀ b ∈ s, invSboxAt (sboxAt b) = b := fun b hb =>
    invSboxAt_sboxAt b (hv b hb)
  rw [List.map_congr_left (fun b hb => this b hb)]
  exact List.map_id s

theorem shiftRows_length (s : List Nat) (h : s.length = 16) :
    (shiftRows s).length = 16 := by
  obtain ⟨b0, b1, b2, b3, b4, b5, b6, b7, b8, b9, b10, b11, b12, b13, b14, b15,
    rfl⟩ := exists_sixteen s h
  rfl

theorem shiftRows_lt (s : List Nat) (h : s.length = 16)
    (hv : ∀ b ∈ s, b < 256) : ∀ b ∈ shiftRows s, b < 256 := by
  obtain ⟨b0, b1, b2, b3, b4, b5, b6, b7, b8, b9, b10, b11, b12, b13, b14, b15,
    rfl⟩ := exists_sixteen s h
  intro b hb
  simp only [shiftRows, List.mem_cons, List.not_mem_nil, or_false] at hb
  rcases hb with rfl|rfl|rfl|rfl|rfl|rfl|rfl|rfl|rfl|rfl|rfl|rfl|rfl|rfl|rfl|rfl <;> exact hv _ (by simp)

theorem invShiftRows_shiftRows (s : List Nat) (h : s.length = 16) :
    invShiftRows (shiftRows s) = s := by
  obtain ⟨b0, b1, b2, b3, b4, b5, b6, b7, b8, b9, b10, b11, b12, b13, b14, b15,
    rfl⟩ := exists_sixteen s h
  rfl

theorem invMixCol_linear (x1 x2 x3 x4 y1 y2 y3 y4 : Nat) :
    invMixCol (x1 ^^^ y1) (x2 ^^^ y2) (x3 ^^^ y3) (x4 ^^^ y4) =
      zipXor (invMixCol x1 x2 x3 x4) (invMixCol y1 y2 y3 y4) := by
  simp only [invMixCol, zipXor, List.zipWith_cons_cons, List.zipWith_nil_right,
    gmul9_linear, gmul11_linear, gmul13_linear, gmul14_linear]
  simp [Nat.xor_assoc, Nat.xor_comm, xor_left_comm]

theorem invMixCol_basis1 : ∀ a : Fin 256,
    invMixCol (gmul2 a.val) a.val a.val (gmul3 a.val) = [a.val, 0, 0, 0] := by
  decide

theorem invMixCol_basis2 : ∀ b : Fin 256,
    invMixCol (gmul3 b.val) (gmul2 b.val) b.val b.val = [0, b.val, 0, 0] := by
  decide

theorem invMixCol_basis3 : ∀ c : Fin 256,
    invMixCol c.val (gmul3 c.val) (gmul2 c.val) c.val = [0, 0, c.val, 0] := by
  decide

theorem invMixCol_basis4 : ∀ d : Fin 256,
    invMixCol d.val d.val (gmul3 d.val) (gmul2 d.val) = [0, 0, 0, d.val] := by
  decide

theorem invMixCol_mixCol (a b c d : Nat) (ha : a < 256) (hb : b < 256)
    (hc : c < 256) (hd : d < 256) :
    invMixCol (gmul2 a ^^^ gmul3 b ^^^ c ^^^ d) (a ^^^ gmul2 b ^^^ gmul3 c ^^^ d)
      (a ^^^ b ^^^ gmul2 c ^^^ gmul3 d) (gmul3 a ^^^ b ^^^ c ^^^ gmul2 d) =
      [a, b, c, d] := by
  simp only [Nat.xor_assoc]
  rw [invMixCol_linear (gmul2 a) a a (gmul3 a)]
  rw [invMixCol_linear (gmul3 b) (gmul2 b) b b]
  rw [invMixCol_linear c (gmul3 c) (gmul2 c) c]
  rw [invMixCol_basis1 ⟨a, ha⟩, invMixCol_basis2 ⟨b, hb⟩,
    invMixCol_basis3 ⟨c, hc⟩, invMixCol_basis4 ⟨d, hd⟩]
  simp [zipXor]

theorem gmul3_lt (b : Nat) (hb : b < 256) : gmul3 b < 256 :=
  xor_lt_256 _ _ (xtime_lt b) hb

theorem mixColumns_length (s : List Nat) (h : s.length = 16) :
    (mixColumns s).length = 16 := by
  obtain ⟨b0, b1, b2, b3, b4, b5, b6, b7, b8, b9, b10, b11, b12, b13, b14, b15,
    rfl⟩ := exists_sixteen s h
  rfl

theorem mixColumns_lt (s : List Nat) (h : s.length = 16)
    (hv : ∀ b ∈ s, b < 256) : ∀ b ∈ mixColumns s, b < 256 := by
  obtain ⟨b0, b1, b2, b3, b4, b5, b6, b7, b8, b9, b10, b11, b12, b13, b14, b15,
    rfl⟩ := exists_sixteen s h
  intro x hx
  simp only [mixColumns, mixCol, List.cons_append, List.nil_append,
    List.mem_cons, List.not_mem_nil, or_false] at hx
  rcases hx with rfl|rfl|rfl|rfl|rfl|rfl|rfl|rfl|rfl|rfl|rfl|rfl|rfl|rfl|rfl|rfl <;>
    (refine xor_lt_256 _ _ (xor_lt_256 _ _ (xor_lt_256 _ _ ?_ ?_) ?_) ?_ <;>
      first
        | exact xtime_lt _
        | exact gmul3_lt _ (hv _ (by simp))
        | exact hv _ (by simp))

theorem invMixColumns_mixColumns (s : List Nat) (h : s.length = 16)
    (hv : ∀ b ∈ s, b < 256) : invMixColumns (mixColumns s) = s := by
  obtain ⟨b0, b1, b2, b3, b4, b5, b6, b7, b8, b9, b10, b11, b12, b13, b14, b15,
    rfl⟩ := exists_sixteen s h
  have k1 := invMixCol_mixCol b0 b1 b2 b3 (hv _ (by simp)) (hv _ (by simp))
    (hv _ (by simp)) (hv _ (by simp))
  have k2 := invMixCol_mixCol b4 b5 b6 b7 (hv _ (by simp)) (hv _ (by simp))
    (hv _ (by simp)) (hv _ (by simp))
  have k3 := invMixCol_mixCol b8 b9 b10 b11 (hv _ (by simp)) (hv _ (by simp))
    (hv _ (by simp)) (hv _ (by simp))
  have k4 := invMixCol_mixCol b12 b13 b14 b15 (hv _ (by simp)) (hv _ (by simp))
    (hv _ (by simp)) (hv _ (by simp))
  simp only [mixColumns, mixCol, List.cons_append, List.nil_append,
    invMixColumns]
  rw [k1, k2, k3, k4]
  rfl

theorem addRoundKey_cancel (k s : List Nat) (h : s.length = k.length) :
    addRoundKey k (addRoundKey k s) = s :=
  zipXor_cancel_right s k h

theorem addRoundKey_length (k s : List Nat) :
    (addRoundKey k s).length = min s.length k.length :=
  zipXor_length s k

theorem addRoundKey_lt (k s : List Nat) (hk : ∀ b ∈ k, b < 256)
    (hs : ∀ b ∈ s, b < 256) : ∀ b ∈ addRoundKey k s, b < 256 :=
  zipXor_lt s k hs hk

theorem getD_mem {α : Type} (l : List α) (n : Nat) (d : α) (h : n < l.length) :
    l.getD n d ∈ l := by
  induction l generalizing n with
  | nil => simp at h
  | cons x t ih =>
    cases n with
    | zero => simp [List.getD]
    | succ m =>
      simp only [List.getD_cons_succ]
      exact List.mem_cons_of_mem x (ih m (by simp at h; omega))

theorem rconAt_lt (j : Nat) : aesRcon.getD j 0 < 256 := by
  by_cases hj : j < 10
  · exact (by decide : ∀ i : Fin 10, aesRcon.getD i.val 0 < 256) ⟨j, hj⟩
  · rw [List.getD_eq_default]
    · omega
    · have : aesRcon.length = 10 := rfl
      omega

theorem rotWord_length (w : List Nat) : (rotWord w).length = w.length := by
  cases w <;> simp [rotWord]

theorem rotWord_lt (w : List Nat) (hw : ∀ b ∈ w, b < 256) :
    ∀ b ∈ rotWord w, b < 256 := by
  cases w with
  | nil => simp [rotWord]
  | cons x t =>
    intro b hb
    simp only [rotWord, List.mem_append, List.mem_cons, List.mem_singleton,
      List.not_mem_nil, or_false] at hb
    rcases hb with hb | rfl
    · exact hw b (by simp [hb])
    · exact hw b (by simp)

theorem subWord_length (w : List Nat) : (subWord w).length = w.length := by
  simp [subWord]

theorem subWord_lt (w : List Nat) : ∀ b ∈ subWord w, b < 256 := by
  intro b hb
  simp only [subWord, List.mem_map] at hb
  obtain ⟨x, _, rfl⟩ := hb
  exact sboxAt_lt x

theorem expandGo_valid (fuel : Nat) :
    ∀ ws : List (List Nat), 4 ≤ ws.length →
    (∀ w ∈ ws, w.length = 4 ∧ ∀ b ∈ w, b < 256) →
    ∀ w ∈ expandGo fuel ws, w.length = 4 ∧ ∀ b ∈ w, b < 256 := by
  induction fuel with
  | zero => intro ws _ hws; exact hws
  | succ n ih =>
    intro ws hlen hws
    simp only [expandGo]
    set prev := ws.getD (ws.length - 1) [] with hprev
    have hprevv : prev.length = 4 ∧ ∀ b ∈ prev, b < 256 :=
      hws prev (getD_mem ws (ws.length - 1) [] (by omega))
    set t := if ws.length % 4 = 0 then
        zipXor (subWord (rotWord prev)) [aesRcon.getD (ws.length / 4 - 1) 0, 0, 0, 0]
      else prev with ht
    have htv : t.length = 4 ∧ ∀ b ∈ t, b < 256 := by
      rw [ht]
      split
      · constructor
        · rw [zipXor_length, subWord_length, rotWord_length, hprevv.1]
          rfl
        · apply zipXor_lt
          · exact subWord_lt _
          · intro b hb
            simp only [List.mem_cons, List.not_mem_nil, or_false] at hb
            rcases hb with rfl | rfl | rfl | rfl
            · exact rconAt_lt _
            all_goals omega
      · exact hprevv
    set w4 := ws.getD (ws.length - 4) [] with hw4
    have hw4v : w4.length = 4 ∧ ∀ b ∈ w4, b < 256 :=
      hws w4 (getD_mem ws (ws.length - 4) [] (by omega))
    apply ih
    · simp only [List.length_append, List.length_cons, List.length_nil]
      omega
    · intro w hw
      rcases List.mem_append.mp hw with hw | hw
      · exact hws w hw
      · simp only [List.mem_singleton] at hw
        subst hw
        constructor
        · rw [zipXor_length, hw4v.1, htv.1]
          rfl
        · exact zipXor_lt _ _ hw4v.2 htv.2

theorem expandGo_length (fuel : Nat) :
    ∀ ws : List (List Nat), (expandGo fuel ws).length = ws.length + fuel := by
  induction fuel with
  | zero => intro ws; rfl
  | succ n ih =>
    intro ws
    simp only [expandGo]
    rw [ih]
    simp only [List.length_append, List.length_cons, List.length_nil]
    omega

theorem chunkByGo_mem_sub {α : Type} (k : Nat) (fuel : Nat) :
    ∀ l : List α, ∀ c ∈ chunkByGo k fuel l, ∀ b ∈ c, b ∈ l := by
  induction fuel with
  | zero => intro l c hc; cases l <;> simp [chunkByGo] at hc
  | succ n ih =>
    intro l c hc b hb
    cases l with
    | nil => simp [chunkByGo] at hc
    | cons x t =>
      simp only [chunkByGo] at hc
      by_cases hk : k = 0
      · simp [hk] at hc
      · rw [if_neg hk] at hc
        rcases List.mem_cons.mp hc with rfl | hc
        · exact List.mem_of_mem_take hb
        · exact List.mem_of_mem_drop (ih _ c hc b hb)

theorem chunkByGo_chunk_length {α : Type} (k : Nat) (hk : 0 < k) (fuel : Nat) :
    ∀ l : List α, l.length ≤ fuel → k ∣ l.length →
    ∀ c ∈ chunkByGo k fuel l, c.length = k := by
  induction fuel with
  | zero => intro l hf hd c hc; cases l <;> simp [chunkByGo] at hc
  | succ n ih =>
    intro l hf hd c hc
    cases l with
    | nil => simp [chunkByGo] at hc
    | cons x t =>
      simp only [chunkByGo] at hc
      rw [if_neg (by omega)] at hc
      have hlen : k ≤ (x :: t).length := by
        rcases hd with ⟨m, hm⟩
        simp only [List.length_cons] at hm ⊢
        rcases Nat.eq_zero_or_pos m with rfl | hmpos
        · omega
        · calc k ≤ k * m := Nat.le_mul_of_pos_right k hmpos
            _ = t.length + 1 := hm.symm
      rcases List.mem_cons.mp hc with rfl | hc
      · simp only [List.length_take]
        omega
      · apply ih ((x :: t).drop k) _ _ c hc
        · simp only [List.length_drop]
          simp only [List.length_cons] at hf ⊢
          omega
        · simp only [List.length_drop]
          exact Nat.dvd_sub' hd (Nat.dvd_refl k)

theorem chunkByGo_count {α : Type} (k : Nat) (hk : 0 < k) (fuel : Nat) :
    ∀ l : List α, l.length ≤ fuel → k ∣ l.length →
    (chunkByGo k fuel l).length = l.length / k := by
  induction fuel with
  | zero =>
    intro l hf hd
    cases l with
    | nil => simp [chunkByGo]
    | cons x t => simp at hf
  | succ n ih =>
    intro l hf hd
    cases l with
    | nil => simp [chunkByGo]
    | cons x t =>
      simp only [chunkByGo]
      rw [if_neg (by omega)]
      have hlen : k ≤ (x :: t).length := by
        rcases hd with ⟨m, hm⟩
        simp only [List.length_cons] at hm ⊢
        rcases Nat.eq_zero_or_pos m with rfl | hmpos
        · omega
        · calc k ≤ k * m := Nat.le_mul_of_pos_right k hmpos
            _ = t.length + 1 := hm.symm
      have hdrop : k ∣ ((x :: t).drop k).length := by
        simp only [List.length_drop]
        exact Nat.dvd_sub' hd (Nat.dvd_refl k)
      rw [List.length_cons, ih ((x :: t).drop k) (by simp [List.length_drop] at *; omega) hdrop]
      simp only [List.length_drop, List.length_cons]
      rcases hd with ⟨m, hm⟩
      simp only [List.length_cons] at hm hlen
      rw [hm]
      cases m with
      | zero => omega
      | succ mm =>
        have h1 : k * (mm + 1) - k = k * mm := by
          simp [Nat.mul_succ]
        have h2 : k * (mm + 1) = k * mm + k := by
          simp [Nat.mul_succ]
        rw [h1, Nat.mul_div_cancel_left _ hk, h2,
          Nat.add_div_right _ hk, Nat.mul_div_cancel_left _ hk]

theorem flatten_length_of (c : List (List Nat))
    (h4 : ∀ w ∈ c, w.length = 4) : c.flatten.length = 4 * c.length := by
  induction c with
  | nil => rfl
  | cons w t ih =>
    simp only [List.flatten_cons, List.length_append, List.length_cons]
    rw [h4 w (by simp), ih (fun w hw => h4 w (by simp [hw]))]
    omega

theorem keyWords_valid (key : List Nat) (hk16 : key.length = 16)
    (hkv : ∀ b ∈ key, b < 256) :
    ∀ w ∈ keyWords key, w.length = 4 ∧ ∀ b ∈ w, b < 256 := by
  unfold keyWords chunkBy
  apply expandGo_valid
  · rw [chunkByGo_count 4 (by omega) key.length key (le_refl _) (by omega)]
    omega
  · intro w hw
    constructor
    · exact chunkByGo_chunk_length 4 (by omega) key.length key (le_refl _)
        (by omega) w hw
    · intro b hb
      exact hkv b (chunkByGo_mem_sub 4 key.length key w hw b hb)

theorem keyWords_length (key : List Nat) (hk16 : key.length = 16) :
    (keyWords key).length = 44 := by
  unfold keyWords chunkBy
  rw [expandGo_length]
  rw [chunkByGo_count 4 (by omega) key.length key (le_refl _) (by omega)]
  omega

theorem roundKeys_valid (key : List Nat) (hk16 : key.length = 16)
    (hkv : ∀ b ∈ key, b < 256) :
    ∀ rk ∈ roundKeys key, rk.length = 16 ∧ ∀ b ∈ rk, b < 256 := by
  intro rk hrk
  simp only [roundKeys, chunkBy, List.mem_map] at hrk
  obtain ⟨c, hc, rfl⟩ := hrk
  have hwords := keyWords_valid key hk16 hkv
  have hwl := keyWords_length key hk16
  have hcsub := chunkByGo_mem_sub 4 (keyWords key).length (keyWords key) c hc
  have hclen : c.length = 4 :=
    chunkByGo_chunk_length 4 (by omega) (keyWords key).length (keyWords key)
      (le_refl _) (by rw [hwl]; omega) c hc
  constructor
  · rw [flatten_length_of c (fun w hw => (hwords w (hcsub w hw)).1), hclen]
  · intro b hb
    simp only [List.mem_flatten] at hb
    obtain ⟨w, hwc, hbw⟩ := hb
    exact (hwords w (hcsub w hwc)).2 b hbw

theorem roundKeys_length (key : List Nat) (hk16 : key.length = 16) :
    (roundKeys key).length = 11 := by
  simp only [roundKeys, chunkBy, List.length_map]
  rw [chunkByGo_count 4 (by omega) (keyWords key).length (keyWords key)
    (le_refl _) (by rw [keyWords_length key hk16]; omega)]
  rw [keyWords_length key hk16]

theorem encRound_valid (s k : List Nat) (hs16 : s.length = 16)
    (hsv : ∀ b ∈ s, b < 256) (hk16 : k.length = 16) (hkv : ∀ b ∈ k, b < 256) :
    (encRound s k).length = 16 ∧ ∀ b ∈ encRound s k, b < 256 := by
  have h1 : (subBytes s).length = 16 := by rw [subBytes_length, hs16]
  have h2 : (shiftRows (subBytes s)).length = 16 := shiftRows_length _ h1
  have h3 := mixColumns_length _ h2
  constructor
  · unfold encRound
    rw [addRoundKey_length, h3, hk16]
    omega
  · unfold encRound
    exact addRoundKey_lt _ _ hkv
      (mixColumns_lt _ h2 (shiftRows_lt _ h1 (subBytes_lt s)))

theorem decRound_encRound (k s : List Nat) (hk16 : k.length = 16)
    (hkv : ∀ b ∈ k, b < 256) (hs16 : s.length = 16)
    (hsv : ∀ b ∈ s, b < 256) : decRound k (encRound s k) = s := by
  have h1 : (subBytes s).length = 16 := by rw [subBytes_length, hs16]
  have h1v := subBytes_lt s
  have h2 : (shiftRows (subBytes s)).length = 16 := shiftRows_length _ h1
  have h2v := shiftRows_lt _ h1 h1v
  have h3 := mixColumns_length _ h2
  unfold encRound decRound
  rw [addRoundKey_cancel _ _ (by rw [h3, hk16])]
  rw [invMixColumns_mixColumns _ h2 h2v]
  rw [invShiftRows_shiftRows _ h1]
  exact invSubBytes_subBytes _ hsv

theorem foldl_encRound_valid (ks : List (List Nat)) :
    ∀ s : List Nat, s.length = 16 → (∀ b ∈ s, b < 256) →
    (∀ k ∈ ks, k.length = 16 ∧ ∀ b ∈ k, b < 256) →
    (List.foldl encRound s ks).length = 16 ∧
      ∀ b ∈ List.foldl encRound s ks, b < 256 := by
  induction ks with
  | nil => intro s hs16 hsv _; exact ⟨hs16, hsv⟩
  | cons k t ih =>
    intro s hs16 hsv hks
    rw [List.foldl_cons]
    have hk := hks k (by simp)
    have henc := encRound_valid s k hs16 hsv hk.1 hk.2
    exact ih _ henc.1 henc.2 (fun k2 hk2 => hks k2 (by simp [hk2]))

theorem foldr_decRound_foldl_encRound (ks : List (List Nat)) :
    ∀ s : List Nat, s.length = 16 → (∀ b ∈ s, b < 256) →
    (∀ k ∈ ks, k.length = 16 ∧ ∀ b ∈ k, b < 256) →
    List.foldr decRound (List.foldl encRound s ks) ks = s := by
  induction ks with
  | nil => intro s _ _ _; rfl
  | cons k t ih =>
    intro s hs16 hsv hks
    rw [List.foldl_cons, List.foldr_cons]
    have hk := hks k (by simp)
    have henc := encRound_valid s k hs16 hsv hk.1 hk.2
    rw [ih _ henc.1 henc.2 (fun k2 hk2 => hks k2 (by simp [hk2]))]
    exact decRound_encRound k s hk.1 hk.2 hs16 hsv

theorem decBlock_encBlock (key block : List Nat) (hkey16 : key.length = 16)
    (hkeyv : ∀ b ∈ key, b < 256) (hb16 : block.length = 16)
    (hbv : ∀ b ∈ block, b < 256) :
    decBlock key (encBlock key block) = block := by
  have hall := roundKeys_valid key hkey16 hkeyv
  have hlen := roundKeys_length key hkey16
  have hk0 := hall _ (getD_mem (roundKeys key) 0 [] (by omega))
  have hk10 := hall _ (getD_mem (roundKeys key) 10 [] (by omega))
  have hmids : ∀ k ∈ ((roundKeys key).drop 1).take 9,
      k.length = 16 ∧ ∀ b ∈ k, b < 256 :=
    fun k hk => hall k (List.mem_of_mem_drop (List.mem_of_mem_take hk))
  have hs0 : (addRoundKey ((roundKeys key).getD 0 []) block).length = 16 := by
    rw [addRoundKey_length, hb16, hk0.1]
    omega
  have hs0v := addRoundKey_lt ((roundKeys key).getD 0 []) block hk0.2 hbv
  have hF := foldl_encRound_valid (((roundKeys key).drop 1).take 9) _
    hs0 hs0v hmids
  simp only [encBlock, decBlock]
  rw [invFinalRound]
  rw [addRoundKey_cancel _ _ (by rw [shiftRows_length _ (by rw [subBytes_length, hF.1]), hk10.1])]
  rw [invShiftRows_shiftRows _ (by rw [subBytes_length, hF.1])]
  rw [invSubBytes_subBytes _ hF.2]
  rw [foldr_decRound_foldl_encRound _ _ hs0 hs0v hmids]
  exact addRoundKey_cancel _ _ (by rw [hb16, hk0.1])

theorem encBlock_valid (key block : List Nat) (hkey16 : key.length = 16)
    (hkeyv : ∀ b ∈ key, b < 256) (hb16 : block.length = 16)
    (hbv : ∀ b ∈ block, b < 256) :
    (encBlock key block).length = 16 ∧ ∀ b ∈ encBlock key block, b < 256 := by
  have hall := roundKeys_valid key hkey16 hkeyv
  have hlen := roundKeys_length key hkey16
  have hk0 := hall _ (getD_mem (roundKeys key) 0 [] (by omega))
  have hk10 := hall _ (getD_mem (roundKeys key) 10 [] (by omega))
  have hmids : ∀ k ∈ ((roundKeys key).drop 1).take 9,
      k.length = 16 ∧ ∀ b ∈ k, b < 256 :=
    fun k hk => hall k (List.mem_of_mem_drop (List.mem_of_mem_take hk))
  have hs0 : (addRoundKey ((roundKeys key).getD 0 []) block).length = 16 := by
    rw [addRoundKey_length, hb16, hk0.1]
    omega
  have hs0v := addRoundKey_lt ((roundKeys key).getD 0 []) block hk0.2 hbv
  have hF := foldl_encRound_valid (((roundKeys key).drop 1).take 9) _
    hs0 hs0v hmids
  have hsub : (subBytes (List.foldl encRound
      (addRoundKey ((roundKeys key).getD 0 []) block)
      (((roundKeys key).drop 1).take 9))).length = 16 := by
    rw [subBytes_length, hF.1]
  constructor
  · simp only [encBlock]
    rw [addRoundKey_length, shiftRows_length _ hsub, hk10.1]
    omega
  · simp only [encBlock]
    exact addRoundKey_lt _ _ hk10.2
      (shiftRows_lt _ hsub (subBytes_lt _))

theorem cbcEncryptGo_length (key : List Nat) (hkey16 : key.length = 16)
    (hkeyv : ∀ b ∈ key, b < 256) :
    ∀ (fuel : Nat) (prev pt : List Nat), pt.length ≤ fuel →
    16 ∣ pt.length → (∀ b ∈ pt, b < 256) →
    prev.length = 16 → (∀ b ∈ prev, b < 256) →
    (cbcEncryptGo key fuel prev pt).length = pt.length ∧
      ∀ b ∈ cbcEncryptGo key fuel prev pt, b < 256 := by
  intro fuel
  induction fuel with
  | zero =>
    intro prev pt hf hd hptv hp16 hpv
    cases pt with
    | nil => simp [cbcEncryptGo]
    | cons x t => simp at hf
  | succ n ih =>
    intro prev pt hf hd hptv hp16 hpv
    cases pt with
    | nil => simp [cbcEncryptGo]
    | cons x t =>
      have h16le : 16 ≤ (x :: t).length := by
        rcases hd with ⟨m, hm⟩
        rcases Nat.eq_zero_or_pos m with rfl | hmpos
        · simp at hm
        · rw [hm]
          exact Nat.le_mul_of_pos_right 16 hmpos
      have htake16 : ((x :: t).take 16).length = 16 := by
        rw [List.length_take]
        omega
      have htakev : ∀ b ∈ (x :: t).take 16, b < 256 :=
        fun b hb => hptv b (List.mem_of_mem_take hb)
      have hxorlen : (zipXor ((x :: t).take 16) prev).length = 16 := by
        rw [zipXor_length, htake16, hp16]
        omega
      have hxorv := zipXor_lt ((x :: t).take 16) prev htakev hpv
      have hc := encBlock_valid key _ hkey16 hkeyv hxorlen hxorv
      have hrec := ih (encBlock key (zipXor ((x :: t).take 16) prev))
        ((x :: t).drop 16)
        (by simp only [List.length_drop]; simp only [List.length_cons] at hf ⊢; omega)
        (by simp only [List.length_drop]; exact Nat.dvd_sub' hd (by norm_num))
        (fun b hb => hptv b (List.mem_of_mem_drop hb))
        hc.1 hc.2
      simp only [cbcEncryptGo]
      constructor
      · rw [List.length_append, hc.1, hrec.1]
        simp only [List.length_drop]
        omega
      · intro b hb
        rcases List.mem_append.mp hb with hb | hb
        · exact hc.2 b hb
        · exact hrec.2 b hb

theorem cbcDecryptGo_cbcEncryptGo (key : List Nat) (hkey16 : key.length = 16)
    (hkeyv : ∀ b ∈ key, b < 256) :
    ∀ (fuel1 fuel2 : Nat) (prev pt : List Nat),
    pt.length ≤ fuel1 → pt.length ≤ fuel2 → 16 ∣ pt.length →
    (∀ b ∈ pt, b < 256) → prev.length = 16 → (∀ b ∈ prev, b < 256) →
    cbcDecryptGo key fuel2 prev (cbcEncryptGo key fuel1 prev pt) = pt := by
  intro fuel1
  induction fuel1 with
  | zero =>
    intro fuel2 prev pt hf1 hf2 hd hptv hp16 hpv
    cases pt with
    | nil => simp [cbcEncryptGo, cbcDecryptGo]
    | cons x t => simp at hf1
  | succ n ih =>
    intro fuel2 prev pt hf1 hf2 hd hptv hp16 hpv
    cases pt with
    | nil => simp [cbcEncryptGo, cbcDecryptGo]
    | cons x t =>
      have h16le : 16 ≤ (x :: t).length := by
        rcases hd with ⟨m, hm⟩
        rcases Nat.eq_zero_or_pos m with rfl | hmpos
        · simp at hm
        · rw [hm]
          exact Nat.le_mul_of_pos_right 16 hmpos
      have htake16 : ((x :: t).take 16).length = 16 := by
        rw [List.length_take]
        omega
      have htakev : ∀ b ∈ (x :: t).take 16, b < 256 :=
        fun b hb => hptv b (List.mem_of_mem_take hb)
      have hxorlen : (zipXor ((x :: t).take 16) prev).length = 16 := by
        rw [zipXor_length, htake16, hp16]
        omega
      have hxorv := zipXor_lt ((x :: t).take 16) prev htakev hpv
      have hc := encBlock_valid key _ hkey16 hkeyv hxorlen hxorv
      have hdroplen : ((x :: t).drop 16).length = (x :: t).length - 16 :=
        List.length_drop 16 (x :: t)
      have hdropdvd : 16 ∣ ((x :: t).drop 16).length := by
        rw [hdroplen]
        exact Nat.dvd_sub' hd (by norm_num)
      have hrecenc := cbcEncryptGo_length key hkey16 hkeyv n
        (encBlock key (zipXor ((x :: t).take 16) prev)) ((x :: t).drop 16)
        (by rw [hdroplen]; simp only [List.length_cons] at hf1 ⊢; omega)
        hdropdvd (fun b hb => hptv b (List.mem_of_mem_drop hb)) hc.1 hc.2
      -- the ciphertext of the first block is nonempty, so fuel2 > 0
      obtain ⟨c1, crest, hcshape⟩ : ∃ c1 crest,
          encBlock key (zipXor ((x :: t).take 16) prev) = c1 :: crest := by
        cases hE : encBlock key (zipXor ((x :: t).take 16) prev) with
        | nil => rw [hE] at hc; simp at hc
        | cons c1 crest => exact ⟨c1, crest, rfl⟩
      cases fuel2 with
      | zero => simp only [List.length_cons] at hf2; omega
      | succ n2 =>
        simp only [cbcEncryptGo]
        rw [hcshape]
        simp only [List.cons_append]
        simp only [cbcDecryptGo]
        rw [← List.cons_append, ← hcshape]
        have hclen : (encBlock key (zipXor ((x :: t).take 16) prev)).length = 16 :=
          hc.1
        rw [List.take_left' hclen, List.drop_left' hclen]
        rw [decBlock_encBlock key _ hkey16 hkeyv hxorlen hxorv]
        rw [zipXor_cancel_right _ _ (by rw [htake16, hp16])]
        rw [ih n2 (encBlock key (zipXor ((x :: t).take 16) prev))
          ((x :: t).drop 16)
          (by rw [hdroplen]; simp only [List.length_cons] at hf1 ⊢; omega)
          (by rw [hdroplen]; simp only [List.length_cons] at hf2 ⊢; omega)
          hdropdvd (fun b hb => hptv b (List.mem_of_mem_drop hb)) hc.1 hc.2]
        exact List.take_append_drop 16 (x :: t)

theorem cbcDecrypt_cbcEncrypt (key prev pt : List Nat)
    (hkey16 : key.length = 16) (hkeyv : ∀ b ∈ key, b < 256)
    (hd : 16 ∣ pt.length) (hptv : ∀ b ∈ pt, b < 256)
    (hp16 : prev.length = 16) (hpv : ∀ b ∈ prev, b < 256) :
    cbcDecrypt key prev (cbcEncrypt key prev pt) = pt := by
  unfold cbcDecrypt cbcEncrypt
  have henclen := cbcEncryptGo_length key hkey16 hkeyv pt.length prev pt
    (le_refl _) hd hptv hp16 hpv
  rw [henclen.1]
  exact cbcDecryptGo_cbcEncryptGo key hkey16 hkeyv pt.length pt.length prev pt
    (le_refl _) (le_refl _) hd hptv hp16 hpv

theorem pkcs7Pad_dvd (bs : List Nat) : 16 ∣ (pkcs7Pad bs).length := by
  simp only [pkcs7Pad, List.length_append, List.length_replicate]
  omega

theorem pkcs7Pad_lt (bs : List Nat) (hv : ∀ b ∈ bs, b < 256) :
    ∀ b ∈ pkcs7Pad bs, b < 256 := by
  intro b hb
  simp only [pkcs7Pad, List.mem_append, List.mem_replicate] at hb
  rcases hb with hb | ⟨_, rfl⟩
  · exact hv b hb
  · omega

theorem pkcs7Pad_length (bs : List Nat) :
    (pkcs7Pad bs).length = bs.length + (16 - bs.length % 16) := by
  simp [pkcs7Pad]

theorem pkcs7Unpad_pkcs7Pad (bs : List Nat) :
    pkcs7Unpad (pkcs7Pad bs) = some bs := by
  have hk1 : 1 ≤ 16 - bs.length % 16 := by omega
  have hk16 : 16 - bs.length % 16 ≤ 16 := by omega
  have hlast : (pkcs7Pad bs).getLast? = some (16 - bs.length % 16) := by
    simp only [pkcs7Pad]
    rw [List.getLast?_append]
    have : List.replicate (16 - bs.length % 16) (16 - bs.length % 16) =
        List.replicate (16 - bs.length % 16 - 1) (16 - bs.length % 16) ++
          [16 - bs.length % 16] := by
      rw [← List.replicate_succ']
      congr 1
      omega
    rw [this, List.getLast?_concat]
    rfl
  simp only [pkcs7Unpad, hlast]
  rw [if_pos]
  · congr 1
    simp only [pkcs7Pad, List.length_append, List.length_replicate]
    have harith : bs.length + (16 - bs.length % 16) - (16 - bs.length % 16) =
        bs.length := by omega
    rw [harith]
    exact List.take_left bs _
  · refine ⟨hk1, hk16, ?_, ?_⟩
    · simp only [pkcs7Pad, List.length_append, List.length_replicate]
      omega
    · simp only [pkcs7Pad, List.length_append, List.length_replicate]
      have harith : bs.length + (16 - bs.length % 16) - (16 - bs.length % 16) =
          bs.length := by omega
      rw [harith, List.drop_left bs _]
      simp [List.all_eq_true, List.mem_replicate]

theorem b64Char_index : ∀ k : Fin 64, b64Index (b64Char k.val) = some k.val := by
  decide

theorem b64Char_ne_eq (k : Nat) : b64Char k ≠ '=' := by
  by_cases hk : k < 64
  · exact (by decide : ∀ i : Fin 64, b64Char i.val ≠ '=') ⟨k, hk⟩
  · unfold b64Char
    rw [List.getD_eq_default]
    · decide
    · have : b64Alphabet.length = 64 := rfl
      omega

theorem b64Index_b64Char (k : Nat) (hk : k < 64) :
    b64Index (b64Char k) = some k :=
  b64Char_index ⟨k, hk⟩

theorem b64DecodeGo_b64EncodeGo : ∀ (n : Nat) (bs : List Nat),
    bs.length ≤ n → (∀ b ∈ bs, b < 256) →
    b64DecodeGo (b64EncodeGo bs) = some bs := by
  intro n
  induction n with
  | zero =>
    intro bs hlen _
    cases bs with
    | nil => rfl
    | cons x t => simp at hlen
  | succ n ih =>
    intro bs hlen hv
    match bs with
    | [] => rfl
    | [x] =>
      have hx := hv x (by simp)
      have h1 := b64Index_b64Char (x / 4) (by omega)
      have h2 := b64Index_b64Char (x % 4 * 16) (by omega)
      simp [b64EncodeGo, b64DecodeGo, h1, h2]
      omega
    | [x, y] =>
      have hx := hv x (by simp)
      have hy := hv y (by simp)
      have h1 := b64Index_b64Char (x / 4) (by omega)
      have h2 := b64Index_b64Char (x % 4 * 16 + y / 16) (by omega)
      have h3 := b64Index_b64Char (y % 16 * 4) (by omega)
      simp [b64EncodeGo, b64DecodeGo, h1, h2, h3, b64Char_ne_eq]
      constructor <;> omega
    | x :: y :: z :: rest =>
      have hx := hv x (by simp)
      have hy := hv y (by simp)
      have hz := hv z (by simp)
      have hrest := ih rest (by simp at hlen; omega)
        (fun b hb => hv b (by simp [hb]))
      have h1 := b64Index_b64Char (x / 4) (by omega)
      have h2 := b64Index_b64Char (x % 4 * 16 + y / 16) (by omega)
      have h3 := b64Index_b64Char (y % 16 * 4 + z / 64) (by omega)
      have h4 := b64Index_b64Char (z % 64) (by omega)
      simp [b64EncodeGo, b64DecodeGo, h1, h2, h3, h4, b64Char_ne_eq, hrest]
      refine ⟨by omega, by omega, by omega⟩

theorem b64Decode_b64Encode (bs : List Nat) (hv : ∀ b ∈ bs, b < 256) :
    b64Decode (b64Encode bs) = some bs := by
  unfold b64Decode b64Encode
  exact b64DecodeGo_b64EncodeGo bs.length bs (le_refl _) hv

theorem char_toNat_lt (c : Char) : c.toNat < 1114112 := by
  rcases c.valid with h | ⟨_, h2⟩
  · exact Nat.lt_trans h (by norm_num)
  · exact h2

theorem utf8Char_lt (n : Nat) (h : n < 1114112) : ∀ b ∈ utf8Char n, b < 256 := by
  intro b hb
  unfold utf8Char at hb
  split at hb
  · simp at hb
    omega
  · split at hb
    · simp at hb
      rcases hb with rfl | rfl <;> omega
    · split at hb
      · simp at hb
        rcases hb with rfl | rfl | rfl <;> omega
      · simp at hb
        rcases hb with rfl | rfl | rfl | rfl <;> omega

theorem utf8Encode_lt (s : String) : ∀ b ∈ utf8Encode s, b < 256 := by
  intro b hb
  simp only [utf8Encode, List.mem_flatten, List.mem_map] at hb
  obtain ⟨l, ⟨c, _, rfl⟩, hbl⟩ := hb
  exact utf8Char_lt c.toNat (char_toNat_lt c) b hbl

theorem utf8Char_ascii (n : Nat) (h : n < 128) : utf8Char n = [n] := by
  unfold utf8Char
  rw [if_pos (by omega)]

theorem utf8Encode_ascii_list : ∀ cs : List Char,
    (∀ c ∈ cs, c.toNat < 128) →
    (cs.map (fun c => utf8Char c.toNat)).flatten = cs.map Char.toNat := by
  intro cs h
  induction cs with
  | nil => rfl
  | cons c t ih =>
    simp only [List.map_cons, List.flatten_cons]
    rw [utf8Char_ascii c.toNat (h c (by simp)), ih (fun x hx => h x (by simp [hx]))]
    rfl

theorem utf8Encode_ascii (s : String) (h : ∀ c ∈ s.toList, c.toNat < 128) :
    utf8Encode s = s.toList.map Char.toNat :=
  utf8Encode_ascii_list s.toList h

theorem hex_upper_ascii :
    ∀ c ∈ hexDigitsLower, (Char.toUpper c).toNat < 128 := by decide


/-! ## Claim C1 -/

/-- C1: for all four string inputs, `compute_signature` is the lowercase
hexadecimal SHA-256 digest of the UTF-8 encoding of the concatenation
`email || encryptedPassword || nonce || regionSecret`, and it is always a
64-character string over the lowercase hex alphabet (determinism is
immediate: it is a pure function of the four inputs). -/
theorem compute_signature_spec :
    ∀ email pwd nonce secret : String,
      compute_signature email pwd nonce secret =
        sha256HexDigest (utf8Encode (email ++ pwd ++ nonce ++ secret)) ∧
      (compute_signature email pwd nonce secret).length = 64 ∧
      ∀ c ∈ (compute_signature email pwd nonce secret).toList,
        c ∈ hexDigitsLower := by
  intro e p n s
  refine ⟨rfl, ?_, ?_⟩
  · show (String.mk (hexOfBytes (sha256Bytes _))).length = 64
    rw [length_mk, length_hexOfBytes, length_sha256Bytes]
  · intro c hc
    exact mem_hexOfBytes (mem_sha256Bytes_lt _) hc

/-- C1 witness: the general theorem applied at concrete inputs; the digest of
`"a" ++ "b" ++ "c" ++ "d"` starts with `'8'`, and that character is in the
lowercase hex alphabet by the theorem. -/
theorem compute_signature_spec_witness :
    '8' ∈ hexDigitsLower ∧ (compute_signature "a" "b" "c" "d").length = 64 :=
  ⟨(compute_signature_spec "a" "b" "c" "d").2.2 '8' (by decide),
   (compute_signature_spec "a" "b" "c" "d").2.1⟩

/-! ## Claim C3 -/

/-- C3: `derive_aes_key` equals the uppercase transform of the lowercase hex
MD5 digest of the nonce restricted to character offsets `[8, 24)`; it has
length 16 and is fixed by uppercasing (determinism is immediate: it is a
pure function of the nonce). -/
theorem derive_aes_key_spec :
    ∀ n : String,
      derive_aes_key n =
        pythonSlice (pythonUpper (md5HexDigest (utf8Encode n))) 8 24 ∧
      (derive_aes_key n).length = 16 ∧
      pythonUpper (derive_aes_key n) = derive_aes_key n := by
  intro n
  refine ⟨rfl, ?_, ?_⟩
  · show (String.mk (((String.mk ((hexOfBytes (md5Bytes _)).map Char.toUpper)).toList.drop 8).take (24 - 8))).length = 16
    rw [length_mk, toList_mk, List.length_take, List.length_drop,
      List.length_map, length_hexOfBytes, length_md5Bytes]
    omega
  · show pythonUpper (String.mk (((String.mk ((hexOfBytes (md5Bytes _)).map Char.toUpper)).toList.drop 8).take (24 - 8))) = _
    rw [toList_mk]
    unfold pythonUpper
    rw [toList_mk]
    show String.mk _ = String.mk _
    congr 1
    have hmem : ∀ c ∈ (((hexOfBytes (md5Bytes (utf8Encode n))).map
        Char.toUpper).drop 8).take (24 - 8), Char.toUpper c = c := by
      intro c hc
      have hc2 := List.mem_of_mem_drop (List.mem_of_mem_take hc)
      simp only [List.mem_map] at hc2
      obtain ⟨c0, hc0, rfl⟩ := hc2
      exact toUpper_toUpper_hex c0 (mem_hexOfBytes (mem_md5Bytes_lt _) hc0)
    rw [List.map_congr_left hmem]
    simp [pythonUpper, md5HexDigest]
    rfl

/-! ## Property-codec lemmas -/

theorem applyProp_raw (props : DeviceProperties) (c v d : String)
    (p : DeviceProperties) (h : applyProp props c v d = .ok p) :
    p.raw = props.raw := by
  unfold applyProp at h
  split at h
  all_goals try split at h
  all_goals try split at h
  all_goals first | (cases h; rfl) | simp at h

theorem propsStep_raw (props : DeviceProperties) (item : PropItem) :
    (propsStep props item).raw = props.raw := by
  unfold propsStep
  split
  · rename_i p h
    exact applyProp_raw _ _ _ _ _ h
  · rfl

theorem foldl_propsStep_raw (l : List PropItem) :
    ∀ init : DeviceProperties, (List.foldl propsStep init l).raw = init.raw := by
  induction l with
  | nil => intro init; rfl
  | cons item t ih =>
    intro init
    rw [List.foldl_cons, ih, propsStep_raw]

/-! ## Claim C4 -/

/-- C4: decoding is total and degrades gracefully. The raw input sequence is
retained verbatim whatever the per-field outcomes; a failing `_apply` call
(caught `ValueError`/`TypeError`/`JSONDecodeError`) leaves the accumulated
properties unchanged, so the remaining records still get decoded; and the
non-numeric `battery_percentage` example decodes to an unset field with the
raw sequence still of length 1. -/
theorem decode_never_raises :
    (∀ records : List PropItem,
      (DeviceProperties.from_api records).raw = records) ∧
    (∀ (props : DeviceProperties) (item : PropItem),
      applyProp props (item.resourceCode.getD "") (item.resourceValce.getD "")
        (item.dataType.getD "") = .error () →
      propsStep props item = props) ∧
    (DeviceProperties.from_api
        [{ resourceCode := some "battery_percentage",
           resourceValce := some "not_a_number",
           dataType := some "INT" }]).battery_percentage = none ∧
    (DeviceProperties.from_api
        [{ resourceCode := some "battery_percentage",
           resourceValce := some "not_a_number",
           dataType := some "INT" }]).raw.length = 1 := by
  refine ⟨?_, ?_, rfl, rfl⟩
  · intro records
    unfold DeviceProperties.from_api
    exact foldl_propsStep_raw records _
  · intro props item h
    simp [propsStep, h]

/-- C4 witness: the non-abort step applied at the claim's own failing record,
with the parse-failure hypothesis discharged by evaluation. -/
theorem decode_never_raises_witness :
    applyProp {} "battery_percentage" "not_a_number" "INT" = .error () ∧
    propsStep {}
      ⟨some "battery_percentage", some "not_a_number", some "INT"⟩ = {} :=
  ⟨rfl, decode_never_raises.2.1 {} _ rfl⟩

/-! ## Claim C5 -/

/-- C5: per-code parsing rules, each read off a one-record decode. Integer
codes parse the value as a base-10 integer (unset exactly when the parse
fails); boolean codes compare the lowercased value with `"true"`; struct
codes decode nested JSON only when the declared type is `STRUCT` and are
left unset otherwise. -/
theorem decode_per_code_rules :
    (∀ v dt : String,
      (DeviceProperties.from_api [⟨some "battery_percentage", some v, some dt⟩]).battery_percentage =
        pythonInt v ∧
      (DeviceProperties.from_api [⟨some "total_input_power", some v, some dt⟩]).total_input_power =
        pythonInt v ∧
      (DeviceProperties.from_api [⟨some "total_output_power", some v, some dt⟩]).total_output_power =
        pythonInt v ∧
      (DeviceProperties.from_api [⟨some "remain_charging_time", some v, some dt⟩]).remain_charging_time =
        pythonInt v ∧
      (DeviceProperties.from_api [⟨some "remain_time", some v, some dt⟩]).remain_discharging_time =
        pythonInt v) ∧
    (∀ v dt : String,
      ((DeviceProperties.from_api [⟨some "ac_switch_hm", some v, some dt⟩]).ac_switch =
            some true ↔ pythonLower v = "true") ∧
      ((DeviceProperties.from_api [⟨some "ac_switch_hm", some v, some dt⟩]).ac_switch =
            some false ↔ pythonLower v ≠ "true") ∧
      ((DeviceProperties.from_api [⟨some "dc_switch_hm", some v, some dt⟩]).dc_switch =
            some true ↔ pythonLower v = "true") ∧
      ((DeviceProperties.from_api [⟨some "dc_switch_hm", some v, some dt⟩]).dc_switch =
            some false ↔ pythonLower v ≠ "true") ∧
      ((DeviceProperties.from_api [⟨some "ups_status_hm", some v, some dt⟩]).ups_status =
            some true ↔ pythonLower v = "true") ∧
      ((DeviceProperties.from_api [⟨some "ups_status_hm", some v, some dt⟩]).ups_status =
            some false ↔ pythonLower v ≠ "true")) ∧
    (∀ v dt : String, dt ≠ "STRUCT" →
      (DeviceProperties.from_api [⟨some "ac_data_output_hm", some v, some dt⟩]).ac_output = none ∧
      (DeviceProperties.from_api [⟨some "dc_data_output_hm", some v, some dt⟩]).dc_output = none ∧
      (DeviceProperties.from_api [⟨some "ac_data_input_hm", some v, some dt⟩]).ac_input = none ∧
      (DeviceProperties.from_api [⟨some "dc_data_input_hm", some v, some dt⟩]).dc_input = none) ∧
    (∀ v : String,
      (DeviceProperties.from_api [⟨some "ac_data_output_hm", some v, some "STRUCT"⟩]).ac_output =
        jsonLoads v ∧
      (DeviceProperties.from_api [⟨some "dc_data_output_hm", some v, some "STRUCT"⟩]).dc_output =
        jsonLoads v ∧
      (DeviceProperties.from_api [⟨some "ac_data_input_hm", some v, some "STRUCT"⟩]).ac_input =
        jsonLoads v ∧
      (DeviceProperties.from_api [⟨some "dc_data_input_hm", some v, some "STRUCT"⟩]).dc_input =
        jsonLoads v) := by
  refine ⟨?_, ?_, ?_, ?_⟩
  · intro v dt
    refine ⟨?_, ?_, ?_, ?_, ?_⟩ <;>
      (cases h : pythonInt v <;>
        simp [DeviceProperties.from_api, propsStep, applyProp, propCodeOf, h])
  · intro v dt
    refine ⟨?_, ?_, ?_, ?_, ?_, ?_⟩ <;>
      simp [DeviceProperties.from_api, propsStep, applyProp, propCodeOf]
  · intro v dt hne
    refine ⟨?_, ?_, ?_, ?_⟩ <;>
      (simp only [DeviceProperties.from_api, List.foldl, propsStep, applyProp,
        propCodeOf]
       simp [hne])
  · intro v
    refine ⟨?_, ?_, ?_, ?_⟩ <;>
      (cases h : jsonLoads v <;>
        (simp only [DeviceProperties.from_api, List.foldl, propsStep, applyProp,
          propCodeOf]
         simp [h]))

/-- C5 witness: the struct-code rule applied at a concrete non-`STRUCT`
declared type, the inequality discharged by evaluation. -/
theorem decode_per_code_rules_witness :
    ("INT" : String) ≠ "STRUCT" ∧
    (DeviceProperties.from_api [⟨some "ac_data_output_hm", some "77", some "INT"⟩]).ac_output = none :=
  ⟨by decide, (decode_per_code_rules.2.2.1 "77" "INT" (by decide)).1⟩

/-! ## Claim C6 (corrected) -/

/-- C6 counterexample: at a concrete device and one-entry mapping, the
submitted `json` value is not the JSON encoding of an object whose `data`
member is an array — parsing the actual body shows `data` is a JSON string
(holding the encoded array), not the array itself. -/
theorem set_device_property_data_not_array :
    batchParamJson { product_key := "p11u2Q", device_key := "ACD9296AD469" }
        [("ac_switch_hm", Json.bool true)] ≠
      claimedBatchParamJson { product_key := "p11u2Q", device_key := "ACD9296AD469" }
        [("ac_switch_hm", Json.bool true)] ∧
    (jsonLoads (batchParamJson { product_key := "p11u2Q", device_key := "ACD9296AD469" }
        [("ac_switch_hm", Json.bool true)])).bind (fun j => jGet j "data") =
      some (Json.str "[\x7b\"ac_switch_hm\": true\x7d]") :=
  ⟨by decide, rfl⟩

/-- C6 (amended): for every device and property mapping, `set_device_property`
submits a form body with the single field `json` whose value is the JSON
encoding of `\x7bdata: S, deviceList: [\x7bproductKey, deviceKey\x7d], type: 0\x7d`
where `S` is a JSON string holding the JSON encoding of the list of
single-key `\x7bcode: value\x7d` objects in the mapping's iteration order, the
values passed through uninterpreted. -/
theorem set_device_property_form_spec :
    ∀ (device : Device) (properties : List (String × Json)),
      setDevicePropertyForm device properties =
        [("json", amendedBatchParamJson device properties)] := by
  intro device properties
  rfl

/-! ## Claim C7 (corrected) -/

/-- C7 counterexample: a matching success-list entry that carries no `ticket`
key yields `success = true` with `ticket` absent, refuting "ticket present
iff success". -/
theorem commandResult_ticket_iff_fails :
    (CommandResult.from_api
        ⟨some [⟨some ⟨some "p1", some "d1"⟩, none, none⟩], none⟩
        "p1" "d1").success = true ∧
    (CommandResult.from_api
        ⟨some [⟨some ⟨some "p1", some "d1"⟩, none, none⟩], none⟩
        "p1" "d1").ticket = none :=
  ⟨rfl, rfl⟩

/-- C7 (amended): the first matching success-list entry yields
`success = true` with that entry's (possibly absent) ticket; otherwise the
first matching failure-list entry yields `success = false` with that entry's
(possibly absent) message; absence from both lists yields `success = false`
with the synthetic not-found message, not a raised error. Ticket is present
only on success and errorMessage only on failure. -/
theorem commandResult_from_api_spec :
    ∀ (response : BatchResponse) (pk dk : String),
      (∀ item, (response.successList.getD []).find? (crMatches pk dk) =
          some item →
        CommandResult.from_api response pk dk =
          { success := true, ticket := item.ticket }) ∧
      ((response.successList.getD []).find? (crMatches pk dk) = none →
        (∀ item, (response.failureList.getD []).find? (crMatches pk dk) =
            some item →
          CommandResult.from_api response pk dk =
            { success := false, error_message := item.msg }) ∧
        ((response.failureList.getD []).find? (crMatches pk dk) = none →
          CommandResult.from_api response pk dk =
            { success := false,
              error_message := some "Device not found in API response" })) ∧
      ((CommandResult.from_api response pk dk).success = false →
        (CommandResult.from_api response pk dk).ticket = none) ∧
      ((CommandResult.from_api response pk dk).success = true →
        (CommandResult.from_api response pk dk).error_message = none) := by
  intro response pk dk
  refine ⟨?_, ?_, ?_, ?_⟩
  · intro item h
    simp [CommandResult.from_api, h]
  · intro hs
    refine ⟨?_, ?_⟩
    · intro item h
      simp [CommandResult.from_api, hs, h]
    · intro hf
      simp [CommandResult.from_api, hs, hf]
  · cases hs : (response.successList.getD []).find? (crMatches pk dk) with
    | some item => simp [CommandResult.from_api, hs]
    | none =>
      cases hf : (response.failureList.getD []).find? (crMatches pk dk) with
      | some item => simp [CommandResult.from_api, hs, hf]
      | none => simp [CommandResult.from_api, hs, hf]
  · cases hs : (response.successList.getD []).find? (crMatches pk dk) with
    | some item => simp [CommandResult.from_api, hs]
    | none =>
      cases hf : (response.failureList.getD []).find? (crMatches pk dk) with
      | some item => simp [CommandResult.from_api, hs, hf]
      | none => simp [CommandResult.from_api, hs, hf]

/-- C7 witness: the amended theorem applied at the success vector with ticket
`"t1"` and at the empty response, the scan hypotheses discharged by
evaluation. -/
theorem commandResult_from_api_spec_witness :
    CommandResult.from_api
        ⟨some [⟨some ⟨some "p1", some "d1"⟩, some "t1", none⟩], none⟩
        "p1" "d1" = { success := true, ticket := some "t1" } ∧
    CommandResult.from_api ⟨none, none⟩ "p1" "d1" =
      { success := false,
        error_message := some "Device not found in API response" } :=
  ⟨(commandResult_from_api_spec
      ⟨some [⟨some ⟨some "p1", some "d1"⟩, some "t1", none⟩], none⟩
      "p1" "d1").1 _ rfl,
   ((commandResult_from_api_spec ⟨none, none⟩ "p1" "d1").2.1 rfl).2 rfl⟩

/-! ## Claim C8 -/

/-- C8: schema parsing accepts all three input shapes — an object with a
JSON-encoded string field holding `\x7bproperties: [...]\x7d`, an object with a
direct `properties` list, and a bare list — and produces identical property
sequences; an absent `subType` defaults to `"R"` with `writable = false`, and
`writable` holds exactly when the access mode is `RW` or `W`. -/
theorem get_product_tsl_shapes :
    (∀ (s : String) (ps : List Json),
      jsonLoads s = some (.obj [("properties", .arr ps)]) →
      getProductTslParse (.obj [("tslJson", .str s)]) =
        getProductTslParse (.arr ps) ∧
      getProductTslParse (.obj [("properties", .arr ps)]) =
        getProductTslParse (.arr ps)) ∧
    (∀ kvs : List (String × Json),
      jGet (.obj kvs) "subType" = none →
      TslProperty.from_api (.obj kvs) =
        .ok { code := jGetD (.obj kvs) "code"
                (jGetD (.obj kvs) "resourceCode" (.str "")),
              name := jGetD (.obj kvs) "name" (.str ""),
              data_type := jGetD (.obj kvs) "dataType" (.str ""),
              sub_type := .str "R", writable := false }) ∧
    (∀ (j : Json) (t : TslProperty), TslProperty.from_api j = .ok t →
      (t.writable = true ↔ (t.sub_type = .str "RW" ∨ t.sub_type = .str "W"))) := by
  refine ⟨?_, ?_, ?_⟩
  · intro s ps h
    constructor
    · simp [getProductTslParse, tslRawProps, jGet, jGetD, h]
    · simp [getProductTslParse, tslRawProps, jGet, jGetD]
  · intro kvs hnone
    simp [TslProperty.from_api, jGetD, hnone, jIsStr]
  · intro j t h
    cases j with
    | obj kvs =>
      cases h
      show (jIsStr (jGetD (.obj kvs) "subType" (.str "R")) "RW" ||
        jIsStr (jGetD (.obj kvs) "subType" (.str "R")) "W") = true ↔ _
      cases jGetD (.obj kvs) "subType" (.str "R") <;> simp [jIsStr]
    | null => simp [TslProperty.from_api] at h
    | bool b => simp [TslProperty.from_api] at h
    | num n => simp [TslProperty.from_api] at h
    | str s => simp [TslProperty.from_api] at h
    | arr xs => simp [TslProperty.from_api] at h

/-- C8 witness: the shape equivalence applied at a concrete encoded schema,
and the `subType` default applied at an entry lacking the key, hypotheses
discharged by evaluating the parser. -/
theorem get_product_tsl_shapes_witness :
    getProductTslParse
        (.obj [("tslJson",
          .str "\x7b\"properties\": [\x7b\"code\": \"ac_switch_hm\", \"subType\": \"RW\"\x7d]\x7d")]) =
      getProductTslParse
        (.arr [.obj [("code", .str "ac_switch_hm"), ("subType", .str "RW")]]) ∧
    TslProperty.from_api (.obj [("code", .str "b")]) =
      .ok { code := .str "b", name := .str "", data_type := .str "",
            sub_type := .str "R", writable := false } :=
  ⟨((get_product_tsl_shapes.1
      "\x7b\"properties\": [\x7b\"code\": \"ac_switch_hm\", \"subType\": \"RW\"\x7d]\x7d"
      [.obj [("code", .str "ac_switch_hm"), ("subType", .str "RW")]]) rfl).1,
   by
    have := get_product_tsl_shapes.2.1 [("code", .str "b")] rfl
    simpa using this⟩

/-! ## Claim C9 -/

/-- C9: a non-200 application code on the login path raises the
authentication failure; on the property-fetch path it raises device-not-found
exactly for upstream codes 404 and 4004 and re-raises the generic failure
otherwise; and every specialized failure kind is caught by an
`except PecronAPIError` handler as well as by its own handler. -/
theorem error_taxonomy :
    (∀ (st : SessionTokens) (resp : Envelope), resp.code ≠ some 200 →
      (loginStep st resp).2 =
        .error { kind := .authenticationError, message := resp.msg,
                 code := resp.code }) ∧
    (∀ resp : Envelope, resp.code ≠ some 200 →
      ((resp.code = some 404 ∨ resp.code = some 4004) →
        getDevicePropsResult resp =
          .error { kind := .deviceNotFoundError, message := resp.msg,
                   code := resp.code }) ∧
      (resp.code ≠ some 404 → resp.code ≠ some 4004 →
        getDevicePropsResult resp =
          .error { kind := .pecronAPIError, message := resp.msg,
                   code := resp.code })) ∧
    catchesAs .authenticationError .pecronAPIError = true ∧
    catchesAs .deviceNotFoundError .pecronAPIError = true ∧
    catchesAs .commandError .pecronAPIError = true ∧
    (∀ k : ExcKind, catchesAs k k = true) := by
  refine ⟨?_, ?_, rfl, rfl, rfl, ?_⟩
  · intro st resp h
    simp [loginStep, requestResult, h]
  · intro resp h
    constructor
    · rintro (hc | hc) <;> simp [getDevicePropsResult, requestResult, h, hc]
    · intro h404 h4004
      cases hcode : resp.code with
      | none => simp [getDevicePropsResult, requestResult, h, hcode]
      | some c =>
        have hc200 : c ≠ 200 := fun hq => h (by rw [hcode, hq])
        have hc4 : c ≠ 404 := fun hq => h404 (by rw [hcode, hq])
        have hc44 : c ≠ 4004 := fun hq => h4004 (by rw [hcode, hq])
        simp [getDevicePropsResult, requestResult, hcode, hc200, hc4, hc44]
  · intro k
    cases k <;> rfl

/-- C9 witness: the taxonomy applied at concrete envelopes with codes 401,
404 and 500, the non-200 hypotheses discharged by evaluation. -/
theorem error_taxonomy_witness :
    (loginStep ⟨none, none⟩ ⟨some 401, "bad credentials", .null⟩).2 =
      .error ⟨.authenticationError, "bad credentials", some 401⟩ ∧
    getDevicePropsResult ⟨some 404, "nf", .null⟩ =
      .error ⟨.deviceNotFoundError, "nf", some 404⟩ ∧
    getDevicePropsResult ⟨some 500, "boom", .null⟩ =
      .error ⟨.pecronAPIError, "boom", some 500⟩ :=
  ⟨error_taxonomy.1 ⟨none, none⟩ ⟨some 401, "bad credentials", .null⟩ (by decide),
   (error_taxonomy.2.1 ⟨some 404, "nf", .null⟩ (by decide)).1 (Or.inl rfl),
   (error_taxonomy.2.1 ⟨some 500, "boom", .null⟩ (by decide)).2 (by decide) (by decide)⟩

/-! ## Claim C10 -/

/-- C10: if login fails with the authentication failure (non-200 application
code from the login endpoint), the session's access and refresh tokens are
exactly what they were before the call; in particular both stay absent on a
never-authenticated session. Tokens are assigned only on the success path. -/
theorem login_failure_preserves_tokens :
    (∀ (st : SessionTokens) (resp : Envelope) (e : PyExc),
      (loginStep st resp).2 = .error e → e.kind = .authenticationError →
      (loginStep st resp).1 = st) ∧
    (∀ (st : SessionTokens) (resp : Envelope), resp.code ≠ some 200 →
      (loginStep st resp).1 = st) ∧
    (∀ resp : Envelope, resp.code ≠ some 200 →
      (loginStep ⟨none, none⟩ resp).1.access_token = none ∧
      (loginStep ⟨none, none⟩ resp).1.refresh_token = none) := by
  refine ⟨?_, ?_, ?_⟩
  · intro st resp e h1 h2
    by_cases hc : resp.code = some 200
    · exfalso
      cases ha : (jGet resp.data "accessToken").bind (fun a => jGet a "token") with
      | none =>
        have hv : (loginStep st resp).2 =
            .error { kind := ExcKind.keyError } := by
          simp [loginStep, requestResult, hc, ha]
        rw [h1] at hv
        injection hv with hv
        rw [hv] at h2
        exact absurd h2 (by decide)
      | some a =>
        cases hr : (jGet resp.data "refreshToken").bind (fun r => jGet r "token") with
        | none =>
          have hv : (loginStep st resp).2 =
              .error { kind := ExcKind.keyError } := by
            simp [loginStep, requestResult, hc, ha, hr]
          rw [h1] at hv
          injection hv with hv
          rw [hv] at h2
          exact absurd h2 (by decide)
        | some r =>
          have hv : (loginStep st resp).2 = .ok () := by
            simp [loginStep, requestResult, hc, ha, hr]
          rw [h1] at hv
          exact Except.noConfusion hv
    · simp [loginStep, requestResult, hc]
  · intro st resp h
    simp [loginStep, requestResult, h]
  · intro resp h
    constructor <;> simp [loginStep, requestResult, h]

/-- C10 witness: a failed login against a session that already held a token
leaves that token in place, hypotheses discharged by evaluation. -/
theorem login_failure_preserves_tokens_witness :
    (loginStep ⟨some (.str "tok"), none⟩ ⟨some 401, "denied", .null⟩).1 =
      ⟨some (.str "tok"), none⟩ :=
  login_failure_preserves_tokens.1 ⟨some (.str "tok"), none⟩
    ⟨some 401, "denied", .null⟩ ⟨.authenticationError, "denied", some 401⟩
    rfl rfl

/-! ## Claim C2 -/

theorem derive_aes_key_toList (n : String) :
    (derive_aes_key n).toList =
      (((hexOfBytes (md5Bytes (utf8Encode n))).map Char.toUpper).drop 8).take 16 :=
  rfl

theorem derive_aes_key_chars (n : String) :
    ∀ c ∈ (derive_aes_key n).toList, c.toNat < 128 := by
  intro c hc
  rw [derive_aes_key_toList] at hc
  have hc2 : c ∈ (hexOfBytes (md5Bytes (utf8Encode n))).map Char.toUpper :=
    List.mem_of_mem_drop (List.mem_of_mem_take hc)
  obtain ⟨c0, hc0, rfl⟩ := List.mem_map.mp hc2
  exact hex_upper_ascii c0 (mem_hexOfBytes (mem_md5Bytes_lt _) hc0)

theorem derive_aes_key_len (n : String) :
    (derive_aes_key n).toList.length = 16 := by
  rw [derive_aes_key_toList]
  rw [List.length_take, List.length_drop, List.length_map, length_hexOfBytes,
    length_md5Bytes]
  omega

theorem aes_iv_toList (n : String) :
    (pythonSlice (derive_aes_key n) 8 16 ++
      pythonSlice (derive_aes_key n) 0 8).toList =
      ((derive_aes_key n).toList.drop 8).take 8 ++
        ((derive_aes_key n).toList.drop 0).take 8 :=
  rfl

theorem aes_iv_chars (n : String) :
    ∀ c ∈ (pythonSlice (derive_aes_key n) 8 16 ++
      pythonSlice (derive_aes_key n) 0 8).toList, c.toNat < 128 := by
  intro c hc
  rw [aes_iv_toList] at hc
  rcases List.mem_append.mp hc with hc | hc
  · exact derive_aes_key_chars n c
      (List.mem_of_mem_drop (List.mem_of_mem_take hc))
  · exact derive_aes_key_chars n c
      (List.mem_of_mem_drop (List.mem_of_mem_take hc))

theorem aes_iv_len (n : String) :
    (pythonSlice (derive_aes_key n) 8 16 ++
      pythonSlice (derive_aes_key n) 0 8).toList.length = 16 := by
  rw [aes_iv_toList]
  rw [List.length_append, List.length_take, List.length_take,
    List.length_drop, List.length_drop, derive_aes_key_len]
  omega

theorem ascii_utf8_props (s : String) (hascii : ∀ c ∈ s.toList, c.toNat < 128) :
    (utf8Encode s).length = s.toList.length ∧ ∀ b ∈ utf8Encode s, b < 256 := by
  rw [utf8Encode_ascii s hascii]
  constructor
  · exact List.length_map s.toList Char.toNat
  · intro b hb
    obtain ⟨c, hc, rfl⟩ := List.mem_map.mp hb
    have := hascii c hc
    omega

theorem cbcEncrypt_lt (key prev pt : List Nat) (hkey16 : key.length = 16)
    (hkeyv : ∀ b ∈ key, b < 256) (hd : 16 ∣ pt.length)
    (hptv : ∀ b ∈ pt, b < 256) (hp16 : prev.length = 16)
    (hpv : ∀ b ∈ prev, b < 256) : ∀ b ∈ cbcEncrypt key prev pt, b < 256 := by
  unfold cbcEncrypt
  exact (cbcEncryptGo_length key hkey16 hkeyv pt.length prev pt (le_refl _)
    hd hptv hp16 hpv).2

/-- C2: `encrypt_password` is deterministic, and for every password and nonce,
base64-decoding its output, AES-CBC-decrypting with the key
`derive_aes_key(nonce)` as raw UTF-8 bytes and the IV built by swapping the
key's two 8-character halves, then stripping PKCS#7 padding, returns exactly
the UTF-8 bytes of the password; the known vector `"TestPassword123"` /
`"Xt9kMpQr2sWvYzAb"` round-trips, its ciphertext being the base64 string
below (cross-checked against AES-128-CBC). -/
theorem encrypt_password_roundtrip :
    (∀ password nonce : String,
      encrypt_password password nonce = encrypt_password password nonce ∧
      (b64Decode (encrypt_password password nonce)).bind
        (fun ct => pkcs7Unpad (cbcDecrypt
          (utf8Encode (derive_aes_key nonce))
          (utf8Encode (pythonSlice (derive_aes_key nonce) 8 16 ++
            pythonSlice (derive_aes_key nonce) 0 8)) ct)) =
        some (utf8Encode password)) ∧
    encrypt_password "TestPassword123" "Xt9kMpQr2sWvYzAb" =
      "zt5V6ttOfZt6T1dGS+fllQ==" ∧
    (b64Decode (encrypt_password "TestPassword123" "Xt9kMpQr2sWvYzAb")).bind
      (fun ct => pkcs7Unpad (cbcDecrypt
        (utf8Encode (derive_aes_key "Xt9kMpQr2sWvYzAb"))
        (utf8Encode (pythonSlice (derive_aes_key "Xt9kMpQr2sWvYzAb") 8 16 ++
          pythonSlice (derive_aes_key "Xt9kMpQr2sWvYzAb") 0 8)) ct)) =
      some (utf8Encode "TestPassword123") := by
  have main : ∀ password nonce : String,
      (b64Decode (encrypt_password password nonce)).bind
        (fun ct => pkcs7Unpad (cbcDecrypt
          (utf8Encode (derive_aes_key nonce))
          (utf8Encode (pythonSlice (derive_aes_key nonce) 8 16 ++
            pythonSlice (derive_aes_key nonce) 0 8)) ct)) =
        some (utf8Encode password) := by
    intro p nonce
    have hkeyp := ascii_utf8_props (derive_aes_key nonce)
      (derive_aes_key_chars nonce)
    have hkey16 : (utf8Encode (derive_aes_key nonce)).length = 16 := by
      rw [hkeyp.1, derive_aes_key_len]
    have hivp := ascii_utf8_props _ (aes_iv_chars nonce)
    have hiv16 : (utf8Encode (pythonSlice (derive_aes_key nonce) 8 16 ++
        pythonSlice (derive_aes_key nonce) 0 8)).length = 16 := by
      rw [hivp.1, aes_iv_len]
    have hptd := pkcs7Pad_dvd (utf8Encode p)
    have hptv := pkcs7Pad_lt (utf8Encode p) (utf8Encode_lt p)
    have hct := cbcEncrypt_lt _ _ _ hkey16 hkeyp.2 hptd hptv hiv16 hivp.2
    simp only [encrypt_password]
    rw [b64Decode_b64Encode _ hct]
    simp only [Option.some_bind]
    rw [cbcDecrypt_cbcEncrypt _ _ _ hkey16 hkeyp.2 hptd hptv hiv16 hivp.2]
    exact pkcs7Unpad_pkcs7Pad _
  refine ⟨fun p n => ⟨rfl, main p n⟩, ?_, main "TestPassword123" "Xt9kMpQr2sWvYzAb"⟩
  rfl

end Pecron

